import Mathlib

/-!
# htmx_dash: the single-owner state controller

A shallow embedding of `main.go`: the severity scale, the configuration entity
(`Config.Update`, `Config.Reset`), the controller loop `Controller.run`, one
serviced message at a time, the log filter `Model.filterLogsUpTo`, and the
control points of the controller and the ticker around the period channel.

Conventions of the embedding.

* Go `string` is `String`; the two library functions applied to strings,
  `html.EscapeString` and `strconv.Atoi`, work on the character list.
* Go `int` counters and sequence numbers are `Int`.  The controller advances a
  counter by one per serviced message, so the 64-bit bound is out of reach and
  no wrap-around is modelled for them.  The low-water mark of
  `Model.filterLogsUpTo` comes from the caller and can be any 64-bit value, so
  the three arithmetic operations of that method wrap as Go's do (`subInt64`,
  `addInt64`).
* `time.Duration` is an `Int` number of nanoseconds.
* `error` is `Option String`: `none` is `nil`, `some e` an error whose text is `e`.
* `map[string][]string` is an association list; indexing a key that is absent
  gives the empty list, as indexing a Go map gives the nil slice.
* `time.Now()` is not modelled: the `Time` of a log entry is whatever the sender
  put there.
-/

namespace HtmxDash

/-! ## Constants (`main.go`, lines 19-34) -/

def severityTrace : String := "Trace"
def severityLevelTrace : Int := 0
def severityInfo : String := "Info"
def severityLevelInfo : Int := 1
def severityWarning : String := "Warning"
def severityLevelWarning : Int := 2
def severityError : String := "Error"
def severityLevelError : Int := 3
def severityLevelInvalid : Int := 4
def logCashSize : Nat := 3
def statusUpdateMinimumSeconds : Int := 1
def statusUpdateMaximumSeconds : Int := 60

/-- One second as a `time.Duration`, in nanoseconds (`time.Second`). -/
def second : Int := 1000000000

/-! ## Data model (`main.go`, lines 36-73) -/

structure Status where
  Date : String
  Time : String
  Uptime : String
  StatusUpdateCount : Int
  ConfigUpdateCount : Int
  LogCount : Int
  deriving DecidableEq

structure Config where
  StatusUpdatePeriod : Int
  StatusUpdatePeriodString : String
  StatusUpdatePeriodError : String
  LogSeverity : String
  deriving DecidableEq

structure Log where
  Time : String
  Severity : String
  Message : String
  SequenceNr : Int
  deriving DecidableEq

structure Logs where
  LoadNext : Int
  Entries : List Log
  deriving DecidableEq

structure Model where
  Status : Status
  Config : Config
  Logs : Logs
  deriving DecidableEq

/-- The field map of a config update request, `map[string][]string`. -/
abbrev Values := List (String × List String)

/-- Indexing of a Go map, `u[k]`: the stored list, or the nil slice when the
key is absent. -/
def Values.index (u : Values) (k : String) : List String :=
  (u.lookup k).getD []

/-! ## Severity scale (`main.go`, lines 84-96) -/

/-- The function `SeverityLevel` of `main.go`. -/
def SeverityLevel (s : String) : Int :=
  if s = severityTrace then severityLevelTrace
  else if s = severityInfo then severityLevelInfo
  else if s = severityWarning then severityLevelWarning
  else if s = severityError then severityLevelError
  else severityLevelInvalid

/-! ## Library functions used by `Config.Update` and `Config.Reset` -/

/-- The replacement `html.EscapeString` makes for one character: the five
markup-unsafe characters `&`, apostrophe (39), `<`, `>` and double quote (34)
become character references, every other character stays. -/
def escapeChar (c : Char) : List Char :=
  if c = '&' then "&amp;".data
  else if c = Char.ofNat 39 then "&#39;".data
  else if c = '<' then "&lt;".data
  else if c = '>' then "&gt;".data
  else if c = Char.ofNat 34 then "&#34;".data
  else [c]

/-- The function `html.EscapeString` on a character list. -/
def escapeChars : List Char → List Char
  | [] => []
  | c :: cs => escapeChar c ++ escapeChars cs

/-- The Go library function `html.EscapeString`. -/
def EscapeString (s : String) : String := ⟨escapeChars s.data⟩

/-- The value of a decimal digit, `ch - 48` when `ch` is one of `0` to `9`. -/
def digitVal (c : Char) : Option Nat :=
  if '0' ≤ c ∧ c ≤ '9' then some (c.toNat - 48) else none

/-- The digit loop of `strconv.Atoi`: `n = n*10 + int(ch)` over the digits,
failing at the first character that is not a digit. -/
def parseDigits : List Char → Nat → Option Nat
  | [], n => some n
  | c :: cs, n =>
    match digitVal c with
    | none => none
    | some d => parseDigits cs (n * 10 + d)

/-- The sign handling and range check of `strconv.Atoi` on a character list,
for the 64-bit `int`: an optional leading `+` or `-`, then at least one
decimal digit and nothing else; a value outside the `int64` range is an error
as well. -/
def atoiChars : List Char → Option Int
  | [] => none
  | c :: cs =>
    let neg : Bool := decide (c = '-')
    let ds : List Char := if c = '-' ∨ c = '+' then cs else c :: cs
    if ds.length < 1 then none
    else
      match parseDigits ds 0 with
      | none => none
      | some n =>
        let v : Int := if neg then -(n : Int) else (n : Int)
        if -9223372036854775808 ≤ v ∧ v ≤ 9223372036854775807 then some v else none

/-- The Go library function `strconv.Atoi`; `none` stands for a non-nil error. -/
def Atoi (s : String) : Option Int := atoiChars s.data

/-- A character `strconv.Atoi` accepts: a sign or a decimal digit. -/
def signOrDigit (c : Char) : Prop := c = '-' ∨ c = '+' ∨ (digitVal c).isSome = true

/-- The verb `%d` of `fmt.Sprintf` for an `int`: decimal digits, with a leading
minus sign for a negative number. -/
def formatInt : Int → String
  | Int.ofNat m => Nat.repr m
  | Int.negSucc m => "-" ++ Nat.repr (m + 1)

/-- The expression `int(rate.Seconds())` of `Config.Reset`.  `Duration.Seconds`
computes `float64(d / Second) + float64(d % Second) / 1e9` and the conversion to
`int` truncates toward zero; in exact arithmetic that is the truncated quotient
`d / Second`.  The floating-point computation gives the same number for every
duration of a whole number of seconds, which is all `Config.Update` commits. -/
def durationSeconds (d : Int) : Int := Int.tdiv d second

/-! ## Configuration entity (`main.go`, lines 98-132) -/

/-- The method `Config.Update` of `main.go`: the configuration after the call
and the returned error. -/
def Config.Update (cfg : Config) (u : Values) : Config × Option String :=
  let logSeverity := u.index "LogSeverity"
  let statusUpdatePeriod := u.index "StatusUpdatePeriod"
  if logSeverity.length < 1 ∨ statusUpdatePeriod.length < 1 then
    (cfg, some "Missing Entries")
  else
    let cfg1 : Config := { cfg with LogSeverity := EscapeString (logSeverity.headD "") }
    if SeverityLevel cfg1.LogSeverity = severityLevelInvalid then
      (cfg1, some ("Invalid severity got " ++ cfg1.LogSeverity ++ " "))
    else
      let cfg2 : Config :=
        { cfg1 with StatusUpdatePeriodString := EscapeString (statusUpdatePeriod.headD "") }
      match Atoi cfg2.StatusUpdatePeriodString with
      | none =>
        let cfg3 : Config :=
          { cfg2 with StatusUpdatePeriodError :=
              "Could not interpret '" ++ cfg2.StatusUpdatePeriodString ++ "' as integer" }
        (cfg3, some cfg3.StatusUpdatePeriodError)
      | some update =>
        let cfg3 : Config := { cfg2 with StatusUpdatePeriodError := "" }
        if update < statusUpdateMinimumSeconds ∨ update > statusUpdateMaximumSeconds then
          let cfg4 : Config :=
            { cfg3 with StatusUpdatePeriodError :=
                "StatusUpdatePeriod must be in range " ++ formatInt statusUpdateMinimumSeconds
                  ++ " - " ++ formatInt statusUpdateMaximumSeconds
                  ++ " s. Got " ++ formatInt update }
          (cfg4, some cfg4.StatusUpdatePeriodError)
        else
          ({ cfg3 with StatusUpdatePeriod := update * second }, none)

/-- The method `Config.Reset` of `main.go`. -/
def Config.Reset (cfg : Config) : Config :=
  let rate := cfg.StatusUpdatePeriod
  let severity := cfg.LogSeverity
  { StatusUpdatePeriod := rate
    StatusUpdatePeriodString := formatInt (durationSeconds rate)
    StatusUpdatePeriodError := ""
    LogSeverity := severity }

/-! ## The controller loop (`main.go`, lines 163-237) -/

/-- The log record the goroutine of `Controller.log` sends on `logWrite`:
`Log{Time: now, Severity: severity, Message: msg}`, the sequence number left at
its zero value. -/
def selfLog (now severity msg : String) : Log :=
  { Time := now, Severity := severity, Message := msg, SequenceNr := 0 }

/-- The messages the `select` of `Controller.run` receives: a status record on
`statusWrite`, a signal on `configReset`, a field map on `configWrite`, a log
record on `logWrite`.  (The send on `modelRead` changes nothing.) -/
inductive Msg where
  | modelRead
  | statusWrite (sNew : Status)
  | configReset
  | configWrite (v : Values)
  | logWrite (l : Log)
  deriving DecidableEq

/-- What one iteration of the loop of `Controller.run` does: the three local
variables `s`, `cfg`, `logs` afterwards (as a `Model`), the calls of `c.log`
made (severity and message), the duration sent on `statusPeriod` and the error
sent on the request's `errorChannel`. -/
structure Step where
  state : Model
  selfLogs : List (String × String)
  statusPeriod : Option Int
  reply : Option (Option String)
  deriving DecidableEq

/-- The local variables of `Controller.run` on entry to the loop
(`main.go`, lines 164-169). -/
def runInit : Model :=
  { Status := { Date := "", Time := "", Uptime := ""
                StatusUpdateCount := 0, ConfigUpdateCount := 0, LogCount := 0 }
    Config := Config.Reset
      { StatusUpdatePeriod := second, StatusUpdatePeriodString := ""
        StatusUpdatePeriodError := "", LogSeverity := severityTrace }
    Logs := { LoadNext := 0, Entries := [] } }

/-- One iteration of the loop of `Controller.run`, by the case of the `select`
that fires. -/
def runStep (m : Model) : Msg → Step
  | .modelRead =>
    { state := m, selfLogs := [], statusPeriod := none, reply := none }
  | .statusWrite sNew =>
    let sNew : Status := { sNew with StatusUpdateCount := m.Status.StatusUpdateCount + 1 }
    let sNew : Status := { sNew with ConfigUpdateCount := m.Status.ConfigUpdateCount }
    let sNew : Status := { sNew with LogCount := m.Status.LogCount }
    { state := { m with Status := sNew }
      selfLogs := [(severityTrace, "Status Updated")]
      statusPeriod := none, reply := none }
  | .configReset =>
    { state := { m with Config := m.Config.Reset }
      selfLogs := [], statusPeriod := none, reply := none }
  | .configWrite v =>
    match m.Config.Update v with
    | (cfg, some e) =>
      { state := { m with Config := cfg }
        selfLogs := [(severityError, e)]
        statusPeriod := some cfg.StatusUpdatePeriod
        reply := some (some e) }
    | (cfg, none) =>
      { state := { m with
          Config := cfg
          Status := { m.Status with ConfigUpdateCount := m.Status.ConfigUpdateCount + 1 } }
        selfLogs := [(severityInfo, "Config Updated")]
        statusPeriod := some cfg.StatusUpdatePeriod
        reply := some none }
  | .logWrite l =>
    if SeverityLevel l.Severity ≥ SeverityLevel m.Config.LogSeverity then
      let l : Log := { l with SequenceNr := m.Status.LogCount }
      let s : Status := { m.Status with LogCount := m.Status.LogCount + 1 }
      let newLog : List Log := [l]
      let cnt : Nat := m.Logs.Entries.length
      let cnt : Nat := if cnt > logCashSize then logCashSize else cnt
      { state := { m with
          Status := s
          Logs := { m.Logs with Entries := newLog ++ m.Logs.Entries.take cnt } }
        selfLogs := [], statusPeriod := none, reply := none }
    else
      { state := m, selfLogs := [], statusPeriod := none, reply := none }

/-- The state of the controller after it has serviced the messages `ms`, in
that order, starting from `m`. -/
def runMsgs (m : Model) (ms : List Msg) : Model :=
  ms.foldl (fun st msg => (runStep st msg).state) m

/-- A controller state is reachable when some sequence of serviced messages
leads to it from the initial state. -/
def Reachable (m : Model) : Prop := ∃ ms : List Msg, m = runMsgs runInit ms

/-- A call made on the configuration: `Update` with a field map, or `Reset`. -/
inductive ConfigCall where
  | update (u : Values)
  | reset
  deriving DecidableEq

/-- The configuration after one call (the error an `Update` returns is dropped). -/
def ConfigCall.apply (cfg : Config) : ConfigCall → Config
  | .update u => (cfg.Update u).1
  | .reset => cfg.Reset

/-- The configuration after a sequence of calls, in that order. -/
def applyCalls (cfg : Config) (calls : List ConfigCall) : Config :=
  calls.foldl ConfigCall.apply cfg

/-- The configuration the controller starts with: Trace severity, 1s period. -/
def defaultConfig : Config := runInit.Config

/-- The severity name is one of the four names of the scale. -/
def validSeverityName (s : String) : Prop :=
  s = severityTrace ∨ s = severityInfo ∨ s = severityWarning ∨ s = severityError

instance (s : String) : Decidable (validSeverityName s) := by
  unfold validSeverityName; infer_instance

/-! ## Incremental log delivery (`main.go`, lines 134-161) -/

/-- The smallest value of Go's 64-bit `int`. -/
def minInt64 : Int := -9223372036854775808

/-- The largest value of Go's 64-bit `int`. -/
def maxInt64 : Int := 9223372036854775807

/-- The integer is a value of Go's 64-bit `int`. -/
def inInt64 (x : Int) : Prop := minInt64 ≤ x ∧ x ≤ maxInt64

instance (x : Int) : Decidable (inInt64 x) := by
  unfold inInt64; infer_instance

/-- The 64-bit two's complement value of an exact result: `x` reduced modulo
`2^64` into the range from `minInt64` to `maxInt64`. -/
def wrapInt64 (x : Int) : Int :=
  (x + 9223372036854775808) % 18446744073709551616 - 9223372036854775808

/-- Go's `a - b` on `int`: the difference of two 64-bit values wraps around.
Operands outside the 64-bit range stand for no Go value (the counters of the
embedding are exact) and are subtracted exactly. -/
def subInt64 (a b : Int) : Int :=
  if inInt64 a ∧ inInt64 b then wrapInt64 (a - b) else a - b

/-- Go's `a + b` on `int`: the sum of two 64-bit values wraps around.  Operands
outside the 64-bit range stand for no Go value and are added exactly. -/
def addInt64 (a b : Int) : Int :=
  if inInt64 a ∧ inInt64 b then wrapInt64 (a + b) else a + b

/-- The loop of `Model.filterLogsUpTo` over the buffered entries: `logEntries`
collects the entries with `SequenceNr >= CurrentLoad` in buffer order and
`LoadNext` becomes the largest sequence number among them. -/
def filterLoop (CurrentLoad : Int) : List Log → List Log → Int → List Log × Int
  | [], logEntries, LoadNext => (logEntries, LoadNext)
  | l :: rest, logEntries, LoadNext =>
    if l.SequenceNr ≥ CurrentLoad then
      filterLoop CurrentLoad rest (logEntries ++ [l])
        (if l.SequenceNr > LoadNext then l.SequenceNr else LoadNext)
    else
      filterLoop CurrentLoad rest logEntries LoadNext

/-- The method `Model.filterLogsUpTo` of `main.go`; `now` is the formatted
`time.Now()` put on the synthesized entry.  The subtractions of lines 137 and
148 and the addition of line 160 are Go's wrapping ones. -/
def Model.filterLogsUpTo (m : Model) (CurrentLoad : Int) (now : String) : Model :=
  let logEntriesUnfiltered := m.Logs.Entries
  let r := filterLoop CurrentLoad logEntriesUnfiltered [] (subInt64 CurrentLoad 1)
  let logEntries := r.1
  let LoadNext := r.2
  let dropped : Int :=
    match logEntries.getLast? with
    | some last => subInt64 last.SequenceNr CurrentLoad
    | none => 0
  let logEntries : List Log :=
    if dropped > 0 then
      logEntries ++ [{ Time := now, Severity := severityWarning
                       Message := "Dropped " ++ formatInt dropped ++ " Log Messages"
                       SequenceNr := 0 }]
    else logEntries
  { m with Logs := { LoadNext := addInt64 LoadNext 1, Entries := logEntries } }

/-- The entry `Model.filterLogsUpTo` synthesizes for `dropped` missed messages:
Warning severity, the message "Dropped d Log Messages", and the sequence number
left at its zero value. -/
def droppedEntry (now : String) (dropped : Int) : Log :=
  { Time := now, Severity := severityWarning
    Message := "Dropped " ++ formatInt dropped ++ " Log Messages"
    SequenceNr := 0 }

/-- The buffered entries at or above the low-water mark `w`, in buffer order. -/
def keptEntries (m : Model) (w : Int) : List Log :=
  m.Logs.Entries.filter (fun l => decide (l.SequenceNr ≥ w))

/-- The number of sequence numbers `s` with `w <= s < LogCount` that no entry of
the buffer carries: the admitted entries at or above the low-water mark `w`
that are no longer in the buffer. -/
def droppedCount (m : Model) (w : Int) : Nat :=
  ((List.range m.Status.LogCount.toNat).filter
    (fun s : Nat => decide (w ≤ (s : Int))
      && decide (∀ l ∈ m.Logs.Entries, l.SequenceNr ≠ (s : Int)))).length

/-- The entry the log-write case admits when it services `msg` in the state
`m`, as it stands in the buffer afterwards (with its sequence number), or `none`
when `msg` is no log write or the entry is dropped. -/
def admitted (m : Model) : Msg → Option Log
  | .logWrite l =>
    if SeverityLevel l.Severity ≥ SeverityLevel m.Config.LogSeverity then
      (runStep m (.logWrite l)).state.Logs.Entries.head?
    else none
  | _ => none

/-- The entries admitted while the controller services `ms` from the state `m`,
in the order of their admission. -/
def admittedAlong (m : Model) : List Msg → List Log
  | [] => []
  | msg :: ms => (admitted m msg).toList ++ admittedAlong (runStep m msg).state ms

/-- The shape of the log ring in a state with log counter `n`: the buffer
carries the sequence numbers `n - 1`, `n - 2`, ... of the newest
`min n (logCashSize + 1)` admitted entries. -/
def ringShape (m : Model) : Prop :=
  ∃ n : Nat, m.Status.LogCount = (n : Int)
    ∧ m.Logs.Entries.map (fun l => l.SequenceNr)
        = (List.range (min n (logCashSize + 1))).map (fun i : Nat => (n : Int) - 1 - (i : Int))

/-! ## The two goroutines around the period channel (`main.go`, lines 170-260)

Control points of `Controller.run` and `Controller.periodicallyUpdateStatus`,
and the moves between them.  All channels are unbuffered (`main.go`, lines
335-340), so a send and its receive happen together. -/

/-- Where the goroutine of `Controller.run` stands: in its `select` (line 171),
at the send `c.statusPeriod <- cfg.StatusUpdatePeriod` of the configWrite case
(line 193), or at the send `cfgUpdate.errorChannel <- err` (line 194). -/
inductive RunAt where
  | select
  | sendStatusPeriod
  | sendError
  deriving DecidableEq

/-- Where the goroutine of `periodicallyUpdateStatus` stands: in its `select`
(line 244), or at the send `c.statusWrite <- s` of `setStatus` (lines 257, 211). -/
inductive TickerAt where
  | select
  | sendStatusWrite
  deriving DecidableEq

structure Goroutines where
  run : RunAt
  ticker : TickerAt
  deriving DecidableEq

/-- The moves of the two goroutines: the timer fires and the ticker takes the
case `<-ticker.C`; the status record passes on `statusWrite`; the controller
receives a request on `configWrite`; the period passes on `statusPeriod`; the
submitter, waiting in `setConfig`, receives the error; the controller services
one of `modelRead`, `configReset`, `logWrite`. -/
inductive Move where
  | timerFires
  | statusPasses
  | configArrives
  | periodPasses
  | errorPasses
  | otherServiced
  deriving DecidableEq

/-- The goroutines after a move, or `none` when the move is not possible where
they stand: a send on an unbuffered channel needs the receiver in the `select`
that has the receiving case. -/
def Goroutines.move (g : Goroutines) : Move → Option Goroutines
  | .timerFires =>
    if g.ticker = .select then some { g with ticker := .sendStatusWrite } else none
  | .statusPasses =>
    if g.run = .select ∧ g.ticker = .sendStatusWrite then
      some { run := .select, ticker := .select }
    else none
  | .configArrives =>
    if g.run = .select then some { g with run := .sendStatusPeriod } else none
  | .periodPasses =>
    if g.run = .sendStatusPeriod ∧ g.ticker = .select then
      some { g with run := .sendError }
    else none
  | .errorPasses =>
    if g.run = .sendError then some { g with run := .select } else none
  | .otherServiced =>
    if g.run = .select then some g else none

/-- The goroutines after a sequence of moves, `none` when one is not possible. -/
def Goroutines.moves (g : Goroutines) : List Move → Option Goroutines
  | [] => some g
  | mv :: rest =>
    match g.move mv with
    | some g1 => g1.moves rest
    | none => none

/-- Both goroutines as `main` starts them: each in its `select`. -/
def goroutinesInit : Goroutines := { run := .select, ticker := .select }

/-! ## The log ring -/

/-- The slice `logs.Entries[:cnt]` with `cnt` capped at `logCashSize` is the
first `logCashSize` entries. -/
theorem take_capped (l : List Log) :
    l.take (if l.length > logCashSize then logCashSize else l.length) = l.take logCashSize := by
  split
  · rfl
  · rw [List.take_of_length_le (le_refl _), List.take_of_length_le (by omega)]

/-- The state after an admitted log write. -/
theorem runStep_logWrite_admitted (m : Model) (l : Log)
    (h : SeverityLevel l.Severity ≥ SeverityLevel m.Config.LogSeverity) :
    (runStep m (.logWrite l)).state =
      { Status := { m.Status with LogCount := m.Status.LogCount + 1 }
        Config := m.Config
        Logs := { LoadNext := m.Logs.LoadNext
                  Entries := { l with SequenceNr := m.Status.LogCount }
                    :: m.Logs.Entries.take logCashSize } } := by
  simp only [runStep, if_pos h, take_capped, List.singleton_append]

/-- The state after a dropped log write. -/
theorem runStep_logWrite_dropped (m : Model) (l : Log)
    (h : ¬ SeverityLevel l.Severity ≥ SeverityLevel m.Config.LogSeverity) :
    (runStep m (.logWrite l)).state = m := by
  simp only [runStep, if_neg h]

/-- Every case of the loop leaves at most `logCashSize + 1` entries in the
buffer when it started with at most that many. -/
theorem runStep_buffer_le (m : Model) (msg : Msg)
    (h : m.Logs.Entries.length ≤ logCashSize + 1) :
    (runStep m msg).state.Logs.Entries.length ≤ logCashSize + 1 := by
  cases msg with
  | modelRead => exact h
  | statusWrite sNew => exact h
  | configReset => exact h
  | configWrite v =>
    simp only [runStep]
    split <;> exact h
  | logWrite l =>
    by_cases hc : SeverityLevel l.Severity ≥ SeverityLevel m.Config.LogSeverity
    · rw [runStep_logWrite_admitted m l hc]
      simp only [List.length_cons, List.length_take]
      omega
    · rw [runStep_logWrite_dropped m l hc]
      exact h

/-- The buffer of a state reached from `m` is bounded as the buffer of `m` is. -/
theorem runMsgs_buffer_le (ms : List Msg) (m : Model)
    (h : m.Logs.Entries.length ≤ logCashSize + 1) :
    (runMsgs m ms).Logs.Entries.length ≤ logCashSize + 1 := by
  induction ms generalizing m with
  | nil => exact h
  | cons msg ms ih => exact ih _ (runStep_buffer_le m msg h)

/-- C1 (evaluation of the code): from the initial state, four admitted Trace
entries leave four entries in the buffer, with sequence numbers 3, 2, 1, 0 from
front to back; the first admitted entry (sequence number 0) is still there, and
the buffer is longer than `logCashSize`. -/
theorem C1_four_admitted_entries_stay_buffered :
    ((runMsgs runInit
        [.logWrite (selfLog "12:00:00" severityTrace "a"),
         .logWrite (selfLog "12:00:01" severityTrace "b"),
         .logWrite (selfLog "12:00:02" severityTrace "c"),
         .logWrite (selfLog "12:00:03" severityTrace "d")]).Logs.Entries.map
        (fun l => (l.SequenceNr, l.Message))) = [(3, "d"), (2, "c"), (1, "b"), (0, "a")]
      ∧ ¬ (runMsgs runInit
        [.logWrite (selfLog "12:00:00" severityTrace "a"),
         .logWrite (selfLog "12:00:01" severityTrace "b"),
         .logWrite (selfLog "12:00:02" severityTrace "c"),
         .logWrite (selfLog "12:00:03" severityTrace "d")]).Logs.Entries.length ≤ logCashSize := by
  decide

/-- C2: the log-write step admits the entry `E` (the state afterwards has `E`,
numbered with the current log counter, in front of the buffer, the log counter
advanced by one, and everything else as before) if and only if
`SeverityLevel E.Severity >= SeverityLevel cfg.LogSeverity`; and it leaves the
whole state unchanged if and only if that comparison fails. -/
theorem C2_logWrite_admits_iff_severity_gate (m : Model) (E : Log) :
    ((runStep m (.logWrite E)).state =
        { Status := { Date := m.Status.Date, Time := m.Status.Time, Uptime := m.Status.Uptime
                      StatusUpdateCount := m.Status.StatusUpdateCount
                      ConfigUpdateCount := m.Status.ConfigUpdateCount
                      LogCount := m.Status.LogCount + 1 }
          Config := m.Config
          Logs := { LoadNext := m.Logs.LoadNext
                    Entries := { Time := E.Time, Severity := E.Severity, Message := E.Message
                                 SequenceNr := m.Status.LogCount }
                      :: m.Logs.Entries.take logCashSize } }
      ↔ SeverityLevel E.Severity ≥ SeverityLevel m.Config.LogSeverity)
    ∧ ((runStep m (.logWrite E)).state = m
      ↔ ¬ SeverityLevel E.Severity ≥ SeverityLevel m.Config.LogSeverity)
    ∧ (runStep m (.logWrite E)).selfLogs = []
    ∧ (runStep m (.logWrite E)).statusPeriod = none
    ∧ (runStep m (.logWrite E)).reply = none := by
  by_cases hc : SeverityLevel E.Severity ≥ SeverityLevel m.Config.LogSeverity
  · refine ⟨⟨fun _ => hc, fun _ => runStep_logWrite_admitted m E hc⟩, ⟨?_, fun h => absurd hc h⟩,
      ?_, ?_, ?_⟩
    · intro h
      rw [runStep_logWrite_admitted m E hc] at h
      have h2 := congrArg (fun x => x.Status.LogCount) h
      simp only at h2
      omega
    all_goals simp only [runStep, if_pos hc]
  · refine ⟨⟨?_, fun h => absurd h hc⟩, ⟨fun _ => hc, fun _ => runStep_logWrite_dropped m E hc⟩,
      ?_, ?_, ?_⟩
    · intro h
      rw [runStep_logWrite_dropped m E hc] at h
      have h2 := congrArg (fun x => x.Status.LogCount) h
      simp only at h2
      omega
    all_goals simp only [runStep, if_neg hc]


/-! ## The library functions on sample inputs, and sanitizing against parsing -/

/-- The model of `strconv.Atoi` on sample inputs: signs, leading zeros, the
empty string, a bare sign, a non-digit, and the two ends of the `int64` range. -/
theorem Atoi_samples :
    Atoi "10" = some 10 ∧ Atoi "+7" = some 7 ∧ Atoi "-0" = some 0 ∧ Atoi "007" = some 7
      ∧ Atoi "-12" = some (-12) ∧ Atoi "" = none ∧ Atoi "-" = none ∧ Atoi "1_0" = none
      ∧ Atoi " 5" = none ∧ Atoi "9223372036854775807" = some 9223372036854775807
      ∧ Atoi "9223372036854775808" = none
      ∧ Atoi "-9223372036854775808" = some (-9223372036854775808) := by
  decide

/-- The models of `html.EscapeString` and of the verb `%d` on sample inputs. -/
theorem EscapeString_formatInt_samples :
    EscapeString "<b>R&D</b>" = "&lt;b&gt;R&amp;D&lt;/b&gt;" ∧ EscapeString "Info" = "Info"
      ∧ formatInt 0 = "0" ∧ formatInt 120 = "120" ∧ formatInt (-7) = "-7" := by
  decide

theorem escapeChar_of_ne {c : Char} (h1 : c ≠ '&') (h2 : c ≠ Char.ofNat 39) (h3 : c ≠ '<')
    (h4 : c ≠ '>') (h5 : c ≠ Char.ofNat 34) : escapeChar c = [c] := by
  simp only [escapeChar, if_neg h1, if_neg h2, if_neg h3, if_neg h4, if_neg h5]

theorem signOrDigit_ne_amp {c : Char} (h : signOrDigit c) : c ≠ '&' := by
  rintro rfl
  rcases h with h | h | h
  · exact absurd h (by decide)
  · exact absurd h (by decide)
  · exact absurd h (by decide)

theorem signOrDigit_escapeChar {c : Char} (h : signOrDigit c) : escapeChar c = [c] := by
  apply escapeChar_of_ne
  all_goals
    rintro rfl
    rcases h with h | h | h
    · exact absurd h (by decide)
    · exact absurd h (by decide)
    · exact absurd h (by decide)

theorem parseDigits_digits (ds : List Char) (acc n : Nat) (h : parseDigits ds acc = some n) :
    ∀ c ∈ ds, (digitVal c).isSome = true := by
  induction ds generalizing acc with
  | nil => intro c hc; cases hc
  | cons d ds ih =>
    intro c hc
    unfold parseDigits at h
    cases hd : digitVal d with
    | none => rw [hd] at h; cases h
    | some v =>
      rw [hd] at h
      rcases List.mem_cons.mp hc with rfl | hc
      · rw [hd]; rfl
      · exact ih _ h c hc

theorem atoiChars_parseDigits (a : Char) (cs : List Char) (n : Int)
    (h : atoiChars (a :: cs) = some n) :
    ∃ m, parseDigits (if a = '-' ∨ a = '+' then cs else a :: cs) 0 = some m := by
  simp only [atoiChars] at h
  generalize (if a = '-' ∨ a = '+' then cs else a :: cs) = ds at h ⊢
  by_cases hlen : ds.length < 1
  · rw [if_pos hlen] at h; cases h
  · rw [if_neg hlen] at h
    cases hm : parseDigits ds 0 with
    | none => rw [hm] at h; cases h
    | some m => exact ⟨m, rfl⟩

theorem atoiChars_signOrDigit (l : List Char) (n : Int) (h : atoiChars l = some n) :
    ∀ c ∈ l, signOrDigit c := by
  cases l with
  | nil => cases h
  | cons a cs =>
    obtain ⟨m, hm⟩ := atoiChars_parseDigits a cs n h
    have hd := parseDigits_digits _ _ _ hm
    intro c hc
    by_cases hs : a = '-' ∨ a = '+'
    · rw [if_pos hs] at hd
      rcases List.mem_cons.mp hc with rfl | hc
      · rcases hs with hs | hs
        · exact Or.inl hs
        · exact Or.inr (Or.inl hs)
      · exact Or.inr (Or.inr (hd c hc))
    · rw [if_neg hs] at hd
      exact Or.inr (Or.inr (hd c hc))

theorem escapeChars_of_signOrDigit (l : List Char) (h : ∀ c ∈ l, signOrDigit c) :
    escapeChars l = l := by
  induction l with
  | nil => rfl
  | cons a cs ih =>
    simp only [escapeChars, signOrDigit_escapeChar (h a (List.mem_cons_self _ _)),
      ih (fun c hc => h c (List.mem_cons_of_mem _ hc)), List.singleton_append]

theorem escapeChars_of_no_amp (l : List Char) (h : ∀ c ∈ escapeChars l, c ≠ '&') :
    escapeChars l = l := by
  induction l with
  | nil => rfl
  | cons a cs ih =>
    simp only [escapeChars] at h ⊢
    have hrest : ∀ c ∈ escapeChars cs, c ≠ '&' := fun c hc => h c (List.mem_append_right _ hc)
    rw [ih hrest]
    have ha : escapeChar a = [a] := by
      unfold escapeChar at h ⊢
      split_ifs at h ⊢ with h1 h2 h3 h4 h5
      · exact absurd rfl (h '&' (List.mem_append_left _ (by decide)))
      · exact absurd rfl (h '&' (List.mem_append_left _ (by decide)))
      · exact absurd rfl (h '&' (List.mem_append_left _ (by decide)))
      · exact absurd rfl (h '&' (List.mem_append_left _ (by decide)))
      · exact absurd rfl (h '&' (List.mem_append_left _ (by decide)))
      · rfl
    rw [ha]; rfl

/-- Sanitizing does not change what `strconv.Atoi` makes of a string. -/
theorem Atoi_EscapeString (p : String) : Atoi (EscapeString p) = Atoi p := by
  by_cases he : escapeChars p.data = p.data
  · simp only [Atoi, EscapeString, he]
  · have h1 : Atoi p = none := by
      cases h : Atoi p with
      | none => rfl
      | some n => exact absurd (escapeChars_of_signOrDigit _ (atoiChars_signOrDigit _ n h)) he
    have h2 : Atoi (EscapeString p) = none := by
      cases h : Atoi (EscapeString p) with
      | none => rfl
      | some n =>
        exact absurd (escapeChars_of_no_amp _
          (fun c hc => signOrDigit_ne_amp (atoiChars_signOrDigit _ n h c hc))) he
    rw [h1, h2]

theorem EscapeString_of_Atoi (p : String) (n : Int) (h : Atoi p = some n) :
    EscapeString p = p := by
  have := escapeChars_of_signOrDigit _ (atoiChars_signOrDigit _ n h)
  simp only [EscapeString, this]

/-! ## The severity scale -/

theorem SeverityLevel_invalid_iff (s : String) :
    SeverityLevel s = severityLevelInvalid ↔ ¬ validSeverityName s := by
  unfold SeverityLevel validSeverityName
  split_ifs with h1 h2 h3 h4
  · simp [h1, severityLevelTrace, severityLevelInvalid]
  · simp [h2, severityLevelInfo, severityLevelInvalid]
  · simp [h3, severityLevelWarning, severityLevelInvalid]
  · simp [h4, severityLevelError, severityLevelInvalid]
  · simp [h1, h2, h3, h4]

theorem EscapeString_validSeverityName (s : String) (h : validSeverityName s) :
    EscapeString s = s := by
  rcases h with h | h | h | h <;> subst h <;> decide

/-! ## `Config.Update`, outcome by outcome -/

theorem Update_missing (cfg : Config) (u : Values)
    (h : u.index "LogSeverity" = [] ∨ u.index "StatusUpdatePeriod" = []) :
    cfg.Update u = (cfg, some "Missing Entries") := by
  have h' : (u.index "LogSeverity").length < 1 ∨ (u.index "StatusUpdatePeriod").length < 1 := by
    rcases h with h | h
    · left; rw [h]; decide
    · right; rw [h]; decide
  simp only [Config.Update, if_pos h']

theorem Update_invalidSeverity (cfg : Config) (u : Values) (s p : String) (ss ps : List String)
    (hs : u.index "LogSeverity" = s :: ss) (hp : u.index "StatusUpdatePeriod" = p :: ps)
    (hbad : SeverityLevel (EscapeString s) = severityLevelInvalid) :
    cfg.Update u =
      ({ cfg with LogSeverity := EscapeString s },
        some ("Invalid severity got " ++ EscapeString s ++ " ")) := by
  simp [Config.Update, hs, hp, hbad]

theorem Update_malformedPeriod (cfg : Config) (u : Values) (s p : String) (ss ps : List String)
    (hs : u.index "LogSeverity" = s :: ss) (hp : u.index "StatusUpdatePeriod" = p :: ps)
    (hok : SeverityLevel (EscapeString s) ≠ severityLevelInvalid)
    (hparse : Atoi (EscapeString p) = none) :
    cfg.Update u =
      ({ StatusUpdatePeriod := cfg.StatusUpdatePeriod
         StatusUpdatePeriodString := EscapeString p
         StatusUpdatePeriodError := "Could not interpret '" ++ EscapeString p ++ "' as integer"
         LogSeverity := EscapeString s },
        some ("Could not interpret '" ++ EscapeString p ++ "' as integer")) := by
  simp [Config.Update, hs, hp, hok, hparse]

theorem rangeText :
    "StatusUpdatePeriod must be in range " ++ formatInt statusUpdateMinimumSeconds ++ " - "
      ++ formatInt statusUpdateMaximumSeconds ++ " s. Got "
      = "StatusUpdatePeriod must be in range 1 - 60 s. Got " := by
  decide

theorem Update_outOfRange (cfg : Config) (u : Values) (s p : String) (ss ps : List String)
    (n : Int)
    (hs : u.index "LogSeverity" = s :: ss) (hp : u.index "StatusUpdatePeriod" = p :: ps)
    (hok : SeverityLevel (EscapeString s) ≠ severityLevelInvalid)
    (hparse : Atoi (EscapeString p) = some n)
    (hrange : n < statusUpdateMinimumSeconds ∨ n > statusUpdateMaximumSeconds) :
    cfg.Update u =
      ({ StatusUpdatePeriod := cfg.StatusUpdatePeriod
         StatusUpdatePeriodString := EscapeString p
         StatusUpdatePeriodError :=
           "StatusUpdatePeriod must be in range 1 - 60 s. Got " ++ formatInt n
         LogSeverity := EscapeString s },
        some ("StatusUpdatePeriod must be in range 1 - 60 s. Got " ++ formatInt n)) := by
  simp only [Config.Update, hs, hp, List.length_cons, List.headD_cons, hok, hparse, if_pos hrange,
    rangeText]
  simp

theorem Update_ok (cfg : Config) (u : Values) (s p : String) (ss ps : List String)
    (n : Int)
    (hs : u.index "LogSeverity" = s :: ss) (hp : u.index "StatusUpdatePeriod" = p :: ps)
    (hok : SeverityLevel (EscapeString s) ≠ severityLevelInvalid)
    (hparse : Atoi (EscapeString p) = some n)
    (hrange : ¬ (n < statusUpdateMinimumSeconds ∨ n > statusUpdateMaximumSeconds)) :
    cfg.Update u =
      ({ StatusUpdatePeriod := n * second
         StatusUpdatePeriodString := EscapeString p
         StatusUpdatePeriodError := ""
         LogSeverity := EscapeString s }, none) := by
  simp only [Config.Update, hs, hp, List.length_cons, List.headD_cons, hok, hparse, if_neg hrange]
  simp

theorem validSeverityName_level (s : String) (h : validSeverityName s) :
    SeverityLevel (EscapeString s) ≠ severityLevelInvalid := by
  rw [EscapeString_validSeverityName s h]
  intro hc
  exact (SeverityLevel_invalid_iff s).mp hc h

/-- C5: for every configuration, every request whose first severity value `s`
is one of Trace, Info, Warning, Error and whose first period value `p` parses
as an integer `n` with `1 <= n <= 60`, `Config.Update` returns no error, commits
the period `n` seconds and the severity `s`, and leaves the error field empty. -/
theorem C5_update_valid_request_commits (cfg : Config) (u : Values) (s p : String)
    (ss ps : List String) (n : Int)
    (hsev : u.index "LogSeverity" = s :: ss) (hper : u.index "StatusUpdatePeriod" = p :: ps)
    (hs : validSeverityName s) (hp : Atoi p = some n) (hlo : 1 ≤ n) (hhi : n ≤ 60) :
    cfg.Update u =
      ({ StatusUpdatePeriod := n * second
         StatusUpdatePeriodString := p
         StatusUpdatePeriodError := ""
         LogSeverity := s }, none) := by
  have hparse : Atoi (EscapeString p) = some n := by rw [Atoi_EscapeString]; exact hp
  have hrange : ¬ (n < statusUpdateMinimumSeconds ∨ n > statusUpdateMaximumSeconds) := by
    simp only [statusUpdateMinimumSeconds, statusUpdateMaximumSeconds]; omega
  rw [Update_ok cfg u s p ss ps n hsev hper (validSeverityName_level s hs) hparse hrange,
    EscapeString_validSeverityName s hs, EscapeString_of_Atoi p n hp]

/-- C5 at Warning / "10", on a configuration with a prior error recorded: the
update succeeds, the committed period is 10s and the error field is cleared. -/
theorem C5_update_valid_request_commits_witness :
    Config.Update
        { StatusUpdatePeriod := 5 * second, StatusUpdatePeriodString := "x"
          StatusUpdatePeriodError := "Could not interpret 'x' as integer"
          LogSeverity := "Info" }
        [("LogSeverity", ["Warning"]), ("StatusUpdatePeriod", ["10"])]
      = ({ StatusUpdatePeriod := 10 * second, StatusUpdatePeriodString := "10"
           StatusUpdatePeriodError := "", LogSeverity := "Warning" }, none) :=
  C5_update_valid_request_commits _ _ "Warning" "10" [] [] 10 (by decide) (by decide)
    (by decide) (by decide) (by decide) (by decide)

/-- C6: for every configuration and every request carrying both fields whose
sanitized severity is not one of Trace, Info, Warning, Error, `Config.Update`
returns the invalid-severity error naming the sanitized string, stores that
string as the severity, and leaves the committed period, the period string and
the period-error field as they were. -/
theorem C6_update_invalid_severity (cfg : Config) (u : Values) (s p : String)
    (ss ps : List String)
    (hsev : u.index "LogSeverity" = s :: ss) (hper : u.index "StatusUpdatePeriod" = p :: ps)
    (hbad : ¬ validSeverityName (EscapeString s)) :
    cfg.Update u =
      ({ StatusUpdatePeriod := cfg.StatusUpdatePeriod
         StatusUpdatePeriodString := cfg.StatusUpdatePeriodString
         StatusUpdatePeriodError := cfg.StatusUpdatePeriodError
         LogSeverity := EscapeString s },
        some ("Invalid severity got " ++ EscapeString s ++ " ")) :=
  Update_invalidSeverity cfg u s p ss ps hsev hper ((SeverityLevel_invalid_iff _).mpr hbad)

/-- C6 at Bogus / "10" on the default configuration. -/
theorem C6_update_invalid_severity_witness :
    defaultConfig.Update [("LogSeverity", ["Bogus"]), ("StatusUpdatePeriod", ["10"])]
      = ({ StatusUpdatePeriod := 1 * second, StatusUpdatePeriodString := "1"
           StatusUpdatePeriodError := "", LogSeverity := "Bogus" },
         some "Invalid severity got Bogus ") :=
  C6_update_invalid_severity defaultConfig _ "Bogus" "10" [] [] (by decide) (by decide)
    (by decide)

/-- C7: for every configuration, every request whose first severity value is a
valid name and whose first period value parses as an integer `n` with `n < 1`
or `n > 60`, `Config.Update` fails, the committed period is the one from before
the call, and the returned error text and the recorded error field are both
"StatusUpdatePeriod must be in range 1 - 60 s. Got n". -/
theorem C7_update_period_out_of_range (cfg : Config) (u : Values) (s p : String)
    (ss ps : List String) (n : Int)
    (hsev : u.index "LogSeverity" = s :: ss) (hper : u.index "StatusUpdatePeriod" = p :: ps)
    (hs : validSeverityName s) (hp : Atoi p = some n) (hrange : n < 1 ∨ n > 60) :
    (cfg.Update u).2 = some ("StatusUpdatePeriod must be in range 1 - 60 s. Got " ++ formatInt n)
      ∧ (cfg.Update u).1.StatusUpdatePeriodError
          = "StatusUpdatePeriod must be in range 1 - 60 s. Got " ++ formatInt n
      ∧ (cfg.Update u).1.StatusUpdatePeriod = cfg.StatusUpdatePeriod := by
  have hparse : Atoi (EscapeString p) = some n := by rw [Atoi_EscapeString]; exact hp
  rw [Update_outOfRange cfg u s p ss ps n hsev hper (validSeverityName_level s hs) hparse hrange]
  exact ⟨rfl, rfl, rfl⟩

/-- C7 at Info / "120" on the default configuration: the period stays 1s and
the error names 120. -/
theorem C7_update_period_out_of_range_witness :
    (defaultConfig.Update [("LogSeverity", ["Info"]), ("StatusUpdatePeriod", ["120"])]).2
        = some "StatusUpdatePeriod must be in range 1 - 60 s. Got 120"
      ∧ (defaultConfig.Update
            [("LogSeverity", ["Info"]), ("StatusUpdatePeriod", ["120"])]).1.StatusUpdatePeriodError
          = "StatusUpdatePeriod must be in range 1 - 60 s. Got 120"
      ∧ (defaultConfig.Update
            [("LogSeverity", ["Info"]), ("StatusUpdatePeriod", ["120"])]).1.StatusUpdatePeriod
          = defaultConfig.StatusUpdatePeriod :=
  C7_update_period_out_of_range defaultConfig _ "Info" "120" [] [] 120 (by decide) (by decide)
    (by decide) (by decide) (by decide)

/-- C8: for every configuration, every request whose first severity value is a
valid name and whose first period value does not parse as an integer,
`Config.Update` returns the error "Could not interpret '<sanitized string>' as
integer", records the same text in the error field, and leaves the committed
period unchanged. -/
theorem C8_update_period_malformed (cfg : Config) (u : Values) (s p : String)
    (ss ps : List String)
    (hsev : u.index "LogSeverity" = s :: ss) (hper : u.index "StatusUpdatePeriod" = p :: ps)
    (hs : validSeverityName s) (hp : Atoi p = none) :
    (cfg.Update u).2 = some ("Could not interpret '" ++ EscapeString p ++ "' as integer")
      ∧ (cfg.Update u).1.StatusUpdatePeriodError
          = "Could not interpret '" ++ EscapeString p ++ "' as integer"
      ∧ (cfg.Update u).1.StatusUpdatePeriod = cfg.StatusUpdatePeriod := by
  have hparse : Atoi (EscapeString p) = none := by rw [Atoi_EscapeString]; exact hp
  rw [Update_malformedPeriod cfg u s p ss ps hsev hper (validSeverityName_level s hs) hparse]
  exact ⟨rfl, rfl, rfl⟩

/-- C8 at Info / "<1x>" on the default configuration: the error quotes the
sanitized string and the period stays 1s. -/
theorem C8_update_period_malformed_witness :
    (defaultConfig.Update [("LogSeverity", ["Info"]), ("StatusUpdatePeriod", ["<1x>"])]).2
        = some "Could not interpret '&lt;1x&gt;' as integer"
      ∧ (defaultConfig.Update
            [("LogSeverity", ["Info"]), ("StatusUpdatePeriod", ["<1x>"])]).1.StatusUpdatePeriodError
          = "Could not interpret '&lt;1x&gt;' as integer"
      ∧ (defaultConfig.Update
            [("LogSeverity", ["Info"]), ("StatusUpdatePeriod", ["<1x>"])]).1.StatusUpdatePeriod
          = defaultConfig.StatusUpdatePeriod :=
  C8_update_period_malformed defaultConfig _ "Info" "<1x>" [] [] (by decide) (by decide)
    (by decide) (by decide)

/-- C9: for every configuration and every field map in which `LogSeverity` or
`StatusUpdatePeriod` is absent or maps to an empty list, `Config.Update` returns
an error ("Missing Entries") and the configuration is unchanged. -/
theorem C9_update_missing_fields (cfg : Config) (u : Values)
    (h : (u.lookup "LogSeverity" = none ∨ u.lookup "LogSeverity" = some [])
      ∨ (u.lookup "StatusUpdatePeriod" = none ∨ u.lookup "StatusUpdatePeriod" = some [])) :
    cfg.Update u = (cfg, some "Missing Entries") := by
  apply Update_missing
  rcases h with (h | h) | (h | h)
  · left; simp [Values.index, h]
  · left; simp [Values.index, h]
  · right; simp [Values.index, h]
  · right; simp [Values.index, h]

/-- C9 on a map that has a severity but no period. -/
theorem C9_update_missing_fields_witness :
    Config.Update
        { StatusUpdatePeriod := 5 * second, StatusUpdatePeriodString := "5"
          StatusUpdatePeriodError := "", LogSeverity := "Info" }
        [("LogSeverity", ["Warning"])]
      = ({ StatusUpdatePeriod := 5 * second, StatusUpdatePeriodString := "5"
           StatusUpdatePeriodError := "", LogSeverity := "Info" }, some "Missing Entries") :=
  C9_update_missing_fields _ _ (Or.inr (Or.inl (by decide)))

/-! ## Reachable configurations -/

theorem applyCalls_append (cfg : Config) (calls : List ConfigCall) (c : ConfigCall) :
    applyCalls cfg (calls ++ [c]) = c.apply (applyCalls cfg calls) := by
  simp [applyCalls, List.foldl_append]

theorem ne_empty_of_length_pos (s : String) (h : 0 < s.length) : s ≠ "" := by
  rintro rfl
  exact absurd h (by decide)

/-- The outcomes of `Config.Update`, by what the request carries. -/
theorem Update_cases (cfg : Config) (u : Values) :
    cfg.Update u = (cfg, some "Missing Entries")
    ∨ (∃ s ss p ps, u.index "LogSeverity" = s :: ss ∧ u.index "StatusUpdatePeriod" = p :: ps
        ∧ ¬ validSeverityName (EscapeString s)
        ∧ cfg.Update u = ({ cfg with LogSeverity := EscapeString s },
            some ("Invalid severity got " ++ EscapeString s ++ " ")))
    ∨ (∃ s p e, validSeverityName (EscapeString s) ∧ e ≠ ""
        ∧ cfg.Update u =
          ({ StatusUpdatePeriod := cfg.StatusUpdatePeriod, StatusUpdatePeriodString := p
             StatusUpdatePeriodError := e, LogSeverity := EscapeString s }, some e))
    ∨ (∃ s p n, validSeverityName (EscapeString s) ∧ 1 ≤ n ∧ n ≤ 60
        ∧ cfg.Update u =
          ({ StatusUpdatePeriod := n * second, StatusUpdatePeriodString := p
             StatusUpdatePeriodError := "", LogSeverity := EscapeString s }, none)) := by
  cases hsev : u.index "LogSeverity" with
  | nil => exact Or.inl (Update_missing cfg u (Or.inl hsev))
  | cons s ss =>
    cases hper : u.index "StatusUpdatePeriod" with
    | nil => exact Or.inl (Update_missing cfg u (Or.inr hper))
    | cons p ps =>
      by_cases hv : validSeverityName (EscapeString s)
      · have hok : SeverityLevel (EscapeString s) ≠ severityLevelInvalid :=
          fun hc => (SeverityLevel_invalid_iff _).mp hc hv
        cases hparse : Atoi (EscapeString p) with
        | none =>
          refine Or.inr (Or.inr (Or.inl ⟨s, EscapeString p, _, hv, ?_,
            Update_malformedPeriod cfg u s p ss ps hsev hper hok hparse⟩))
          apply ne_empty_of_length_pos
          have h1 : "Could not interpret '".length = 21 := by decide
          simp only [String.length_append, h1]
          omega
        | some n =>
          by_cases hrange : n < statusUpdateMinimumSeconds ∨ n > statusUpdateMaximumSeconds
          · refine Or.inr (Or.inr (Or.inl ⟨s, EscapeString p, _, hv, ?_,
              Update_outOfRange cfg u s p ss ps n hsev hper hok hparse hrange⟩))
            apply ne_empty_of_length_pos
            have h1 : "StatusUpdatePeriod must be in range 1 - 60 s. Got ".length = 50 := by
              decide
            simp only [String.length_append, h1]
            omega
          · refine Or.inr (Or.inr (Or.inr ⟨s, EscapeString p, n, hv, ?_, ?_,
              Update_ok cfg u s p ss ps n hsev hper hok hparse hrange⟩))
            · simp only [statusUpdateMinimumSeconds, statusUpdateMaximumSeconds] at hrange; omega
            · simp only [statusUpdateMinimumSeconds, statusUpdateMaximumSeconds] at hrange; omega
      · exact Or.inr (Or.inl ⟨s, ss, p, ps, rfl, rfl, hv,
          Update_invalidSeverity cfg u s p ss ps hsev hper ((SeverityLevel_invalid_iff _).mpr hv)⟩)

/-- The committed period after any call is the one before it, or a whole number
of seconds between 1 and 60. -/
theorem apply_period (cfg : Config) (c : ConfigCall) :
    (c.apply cfg).StatusUpdatePeriod = cfg.StatusUpdatePeriod
    ∨ ∃ n : Int, 1 ≤ n ∧ n ≤ 60 ∧ (c.apply cfg).StatusUpdatePeriod = n * second := by
  cases c with
  | reset => exact Or.inl rfl
  | update u =>
    simp only [ConfigCall.apply]
    rcases Update_cases cfg u with h | ⟨s, ss, p, ps, _, _, _, h⟩ | ⟨s, p, e, _, _, h⟩
      | ⟨s, p, n, _, h1, h2, h⟩
    · rw [h]; exact Or.inl rfl
    · rw [h]; exact Or.inl rfl
    · rw [h]; exact Or.inl rfl
    · rw [h]; exact Or.inr ⟨n, h1, h2, rfl⟩

/-- In every configuration reachable from the default one the committed period
is a whole number of seconds between 1 and 60. -/
theorem reachable_period (calls : List ConfigCall) :
    ∃ n : Int, 1 ≤ n ∧ n ≤ 60 ∧ (applyCalls defaultConfig calls).StatusUpdatePeriod = n * second := by
  induction calls using List.reverseRecOn with
  | nil => exact ⟨1, by decide, by decide, by decide⟩
  | append_singleton calls c ih =>
    rw [applyCalls_append]
    rcases apply_period (applyCalls defaultConfig calls) c with h | h
    · rw [h]; exact ih
    · exact h

/-- C10: in every configuration reachable from the default configuration by a
sequence of `Update` and `Reset` calls, whenever the error field is empty the
committed period lies between 1s and 60s. -/
theorem C10_period_in_range_when_no_error (calls : List ConfigCall)
    (_h : (applyCalls defaultConfig calls).StatusUpdatePeriodError = "") :
    statusUpdateMinimumSeconds * second ≤ (applyCalls defaultConfig calls).StatusUpdatePeriod
      ∧ (applyCalls defaultConfig calls).StatusUpdatePeriod
          ≤ statusUpdateMaximumSeconds * second := by
  obtain ⟨n, h1, h2, hn⟩ := reachable_period calls
  rw [hn]
  simp only [statusUpdateMinimumSeconds, statusUpdateMaximumSeconds, second]
  omega

/-- C10 after a successful update to 10s, a failed one to 120s, and a reset:
the error field is empty again and the period is still 10s. -/
theorem C10_period_in_range_when_no_error_witness :
    (applyCalls defaultConfig
        [.update [("LogSeverity", ["Warning"]), ("StatusUpdatePeriod", ["10"])],
         .update [("LogSeverity", ["Info"]), ("StatusUpdatePeriod", ["120"])],
         .reset]).StatusUpdatePeriodError = ""
      ∧ statusUpdateMinimumSeconds * second ≤ (applyCalls defaultConfig
        [.update [("LogSeverity", ["Warning"]), ("StatusUpdatePeriod", ["10"])],
         .update [("LogSeverity", ["Info"]), ("StatusUpdatePeriod", ["120"])],
         .reset]).StatusUpdatePeriod
      ∧ (applyCalls defaultConfig
        [.update [("LogSeverity", ["Warning"]), ("StatusUpdatePeriod", ["10"])],
         .update [("LogSeverity", ["Info"]), ("StatusUpdatePeriod", ["120"])],
         .reset]).StatusUpdatePeriod ≤ statusUpdateMaximumSeconds * second :=
  ⟨by decide, C10_period_in_range_when_no_error _ (by decide)⟩

/-- C4 (counterexample): one `Update` with the severity "Bogus" from the default
configuration leaves "Bogus" in the minimum-severity field, which is none of
Trace, Info, Warning, Error. -/
theorem C4_rejected_severity_is_stored :
    (applyCalls defaultConfig
        [.update [("LogSeverity", ["Bogus"]), ("StatusUpdatePeriod", ["10"])]]).LogSeverity
        = "Bogus"
      ∧ ¬ validSeverityName (applyCalls defaultConfig
        [.update [("LogSeverity", ["Bogus"]), ("StatusUpdatePeriod", ["10"])]]).LogSeverity := by
  decide

/-- C4 (amended): in every configuration reachable from the default
configuration by a sequence of `Update` and `Reset` calls, the minimum-severity
field is one of Trace, Info, Warning, Error, or it is the sanitized severity
string of an `Update` call of the sequence that carried both fields and a
severity that is none of the four names (a call rejected for invalid severity). -/
theorem C4_severity_valid_or_from_rejected_update (calls : List ConfigCall) :
    validSeverityName (applyCalls defaultConfig calls).LogSeverity
    ∨ ∃ u s ss p ps, ConfigCall.update u ∈ calls
        ∧ u.index "LogSeverity" = s :: ss ∧ u.index "StatusUpdatePeriod" = p :: ps
        ∧ ¬ validSeverityName (EscapeString s)
        ∧ (applyCalls defaultConfig calls).LogSeverity = EscapeString s := by
  induction calls using List.reverseRecOn with
  | nil => exact Or.inl (by decide)
  | append_singleton calls c ih =>
    rw [applyCalls_append]
    have keep : (c.apply (applyCalls defaultConfig calls)).LogSeverity
        = (applyCalls defaultConfig calls).LogSeverity →
        validSeverityName (c.apply (applyCalls defaultConfig calls)).LogSeverity
        ∨ ∃ u s ss p ps, ConfigCall.update u ∈ calls ++ [c]
            ∧ u.index "LogSeverity" = s :: ss ∧ u.index "StatusUpdatePeriod" = p :: ps
            ∧ ¬ validSeverityName (EscapeString s)
            ∧ (c.apply (applyCalls defaultConfig calls)).LogSeverity = EscapeString s := by
      intro hk
      rw [hk]
      rcases ih with ih | ⟨u, s, ss, p, ps, hmem, h1, h2, h3, h4⟩
      · exact Or.inl ih
      · exact Or.inr ⟨u, s, ss, p, ps, List.mem_append_left _ hmem, h1, h2, h3, h4⟩
    cases c with
    | reset => exact keep rfl
    | update u =>
      rcases Update_cases (applyCalls defaultConfig calls) u with h | ⟨s, ss, p, ps, h1, h2, h3, h⟩
        | ⟨s, p, e, hv, _, h⟩ | ⟨s, p, n, hv, _, _, h⟩
      · exact keep (by simp only [ConfigCall.apply, h])
      · refine Or.inr ⟨u, s, ss, p, ps, List.mem_append_right _ (List.mem_singleton_self _),
          h1, h2, h3, ?_⟩
        simp only [ConfigCall.apply, h]
      · left; simp only [ConfigCall.apply, h]; exact hv
      · left; simp only [ConfigCall.apply, h]; exact hv

/-! ## Failed config updates and the log -/

/-- C3 (evaluation of the code): from the initial state, the update Bogus / "10"
fails with "Invalid severity got Bogus ", the controller emits the Error
self-log with that text and stores "Bogus" as the minimum severity, and
servicing that self-log leaves the log buffer empty: the entry is dropped.
The update Info / "120" from the same state fails as well, and servicing its
Error self-log puts the entry in front of the buffer. -/
theorem C3_invalid_severity_failure_not_logged :
    Reachable runInit
      ∧ (runInit.Config.Update
          [("LogSeverity", ["Bogus"]), ("StatusUpdatePeriod", ["10"])]).2
          = some "Invalid severity got Bogus "
      ∧ (runStep runInit
          (.configWrite [("LogSeverity", ["Bogus"]), ("StatusUpdatePeriod", ["10"])])).selfLogs
          = [(severityError, "Invalid severity got Bogus ")]
      ∧ (runStep runInit
          (.configWrite
            [("LogSeverity", ["Bogus"]), ("StatusUpdatePeriod", ["10"])])).state.Config.LogSeverity
          = "Bogus"
      ∧ (runStep
          (runStep runInit
            (.configWrite [("LogSeverity", ["Bogus"]), ("StatusUpdatePeriod", ["10"])])).state
          (.logWrite (selfLog "12:00:00" severityError
            "Invalid severity got Bogus "))).state.Logs.Entries = []
      ∧ (runStep runInit
          (.configWrite [("LogSeverity", ["Info"]), ("StatusUpdatePeriod", ["120"])])).selfLogs
          = [(severityError, "StatusUpdatePeriod must be in range 1 - 60 s. Got 120")]
      ∧ (runStep
          (runStep runInit
            (.configWrite [("LogSeverity", ["Info"]), ("StatusUpdatePeriod", ["120"])])).state
          (.logWrite (selfLog "12:00:00" severityError
            "StatusUpdatePeriod must be in range 1 - 60 s. Got 120"))).state.Logs.Entries
          = [{ Time := "12:00:00", Severity := "Error"
               Message := "StatusUpdatePeriod must be in range 1 - 60 s. Got 120"
               SequenceNr := 0 }] :=
  ⟨⟨[], rfl⟩, by decide, by decide, by decide, by decide, by decide, by decide⟩

/-! ## `Config.Reset` -/

/-- C11: for every configuration whose committed period is a whole number `n`
of seconds, `Config.Reset` sets the period string to the decimal form of `n`,
clears the error field, and leaves the severity and the committed period
unchanged; and for every configuration `c`, resetting twice is resetting once. -/
theorem C11_reset_restores_period_string (cfg : Config) (n : Int)
    (h : cfg.StatusUpdatePeriod = n * second) :
    cfg.Reset =
        { StatusUpdatePeriod := cfg.StatusUpdatePeriod
          StatusUpdatePeriodString := formatInt n
          StatusUpdatePeriodError := ""
          LogSeverity := cfg.LogSeverity }
      ∧ ∀ c : Config, c.Reset.Reset = c.Reset := by
  constructor
  · simp only [Config.Reset, durationSeconds, h]
    rw [Int.mul_tdiv_cancel n (by decide : second ≠ 0)]
  · intro c
    rfl

/-- C11 after the successful update Warning / "10" followed by the failed update
Info / "x": reset puts back the period string "10", clears the error and keeps
the severity Info and the period 10s. -/
theorem C11_reset_restores_period_string_witness :
    Config.Reset
        { StatusUpdatePeriod := 10 * second, StatusUpdatePeriodString := "x"
          StatusUpdatePeriodError := "Could not interpret 'x' as integer"
          LogSeverity := "Info" }
      = { StatusUpdatePeriod := 10 * second, StatusUpdatePeriodString := "10"
          StatusUpdatePeriodError := "", LogSeverity := "Info" } :=
  (C11_reset_restores_period_string _ 10 rfl).1

/-! ## The config-write and status-write cases -/

/-- C15: for every controller state and every request, the config-write step
answers with the result of `Config.Update` on the current configuration and
commits the configuration `Update` leaves; on success the config-update counter
grows by one and the one self-log is Info "Config Updated", on failure the
counter is unchanged and the one self-log is Error with the failure text; the
status-update counter, the log counter, the date, time and uptime and the log
buffer are unchanged, and the period pushed to the ticker is the committed
period after the update. -/
theorem C15_configWrite_step (m : Model) (v : Values) :
    (runStep m (.configWrite v)).reply = some (m.Config.Update v).2
      ∧ (runStep m (.configWrite v)).state.Config = (m.Config.Update v).1
      ∧ (runStep m (.configWrite v)).state.Status.ConfigUpdateCount
          = m.Status.ConfigUpdateCount + (if (m.Config.Update v).2 = none then 1 else 0)
      ∧ (runStep m (.configWrite v)).selfLogs
          = (match (m.Config.Update v).2 with
             | none => [(severityInfo, "Config Updated")]
             | some e => [(severityError, e)])
      ∧ (runStep m (.configWrite v)).state.Status.StatusUpdateCount
          = m.Status.StatusUpdateCount
      ∧ (runStep m (.configWrite v)).state.Status.LogCount = m.Status.LogCount
      ∧ (runStep m (.configWrite v)).state.Status.Date = m.Status.Date
      ∧ (runStep m (.configWrite v)).state.Status.Time = m.Status.Time
      ∧ (runStep m (.configWrite v)).state.Status.Uptime = m.Status.Uptime
      ∧ (runStep m (.configWrite v)).state.Logs = m.Logs
      ∧ (runStep m (.configWrite v)).statusPeriod
          = some (m.Config.Update v).1.StatusUpdatePeriod := by
  rcases hU : m.Config.Update v with ⟨cfg, _ | e⟩
  · simp [runStep, hU]
  · simp [runStep, hU]

/-- C16: for every controller state and every incoming status record, the
status-write step takes the date, time and uptime of the incoming record, adds
one to the status-update counter, keeps the config-update counter and the log
counter of the state (whatever the record carries), leaves the configuration and
the log buffer unchanged, and emits the one self-log Trace "Status Updated". -/
theorem C16_statusWrite_step (m : Model) (sNew : Status) :
    (runStep m (.statusWrite sNew)).state =
        { Status := { Date := sNew.Date, Time := sNew.Time, Uptime := sNew.Uptime
                      StatusUpdateCount := m.Status.StatusUpdateCount + 1
                      ConfigUpdateCount := m.Status.ConfigUpdateCount
                      LogCount := m.Status.LogCount }
          Config := m.Config
          Logs := m.Logs }
      ∧ (runStep m (.statusWrite sNew)).selfLogs = [(severityTrace, "Status Updated")]
      ∧ (runStep m (.statusWrite sNew)).statusPeriod = none
      ∧ (runStep m (.statusWrite sNew)).reply = none :=
  ⟨rfl, rfl, rfl, rfl⟩

/-- C17: `SeverityLevel` maps Trace to 0, Info to 1, Warning to 2 and Error to
3, and a string that is none of these four names to the invalid level, which is
strictly greater than the level of Error. -/
theorem C17_severity_levels (s : String) (h : ¬ validSeverityName s) :
    SeverityLevel "Trace" = 0 ∧ SeverityLevel "Info" = 1 ∧ SeverityLevel "Warning" = 2
      ∧ SeverityLevel "Error" = 3
      ∧ SeverityLevel s = severityLevelInvalid
      ∧ SeverityLevel s > SeverityLevel "Error" := by
  have hs := (SeverityLevel_invalid_iff s).mpr h
  refine ⟨by decide, by decide, by decide, by decide, hs, ?_⟩
  rw [hs]
  decide

/-- C17 at the string "error", which differs from a valid name only in case. -/
theorem C17_severity_levels_witness :
    SeverityLevel "error" = severityLevelInvalid
      ∧ SeverityLevel "error" > SeverityLevel "Error" :=
  (C17_severity_levels "error" (by decide)).2.2.2.2

/-! ## Incremental log delivery -/

theorem filterLoop_fst (w : Int) (l acc : List Log) (ln : Int) :
    (filterLoop w l acc ln).1 = acc ++ l.filter (fun x => decide (x.SequenceNr ≥ w)) := by
  induction l generalizing acc ln with
  | nil => simp [filterLoop]
  | cons a t ih =>
    by_cases h : a.SequenceNr ≥ w
    · simp only [filterLoop, if_pos h, ih, List.filter_cons, decide_eq_true h, if_true,
        List.append_assoc, List.singleton_append]
    · simp only [filterLoop, if_neg h, ih, List.filter_cons, decide_eq_false h]
      simp

/-- The running maximum the loop leaves in `LoadNext`: at least the start value,
at least every kept sequence number, and one of those. -/
theorem filterLoop_snd (w : Int) (l acc : List Log) (ln : Int) :
    ln ≤ (filterLoop w l acc ln).2
      ∧ (∀ x ∈ l, x.SequenceNr ≥ w → x.SequenceNr ≤ (filterLoop w l acc ln).2)
      ∧ ((filterLoop w l acc ln).2 = ln
          ∨ ∃ x ∈ l, x.SequenceNr ≥ w ∧ (filterLoop w l acc ln).2 = x.SequenceNr) := by
  induction l generalizing acc ln with
  | nil => simp [filterLoop]
  | cons a t ih =>
    by_cases h : a.SequenceNr ≥ w
    · simp only [filterLoop, if_pos h]
      obtain ⟨h1, h2, h3⟩ := ih (acc ++ [a]) (if a.SequenceNr > ln then a.SequenceNr else ln)
      have hmax : ln ≤ (if a.SequenceNr > ln then a.SequenceNr else ln)
          ∧ a.SequenceNr ≤ (if a.SequenceNr > ln then a.SequenceNr else ln) := by
        split <;> omega
      refine ⟨le_trans hmax.1 h1, ?_, ?_⟩
      · intro x hx hxw
        rcases List.mem_cons.mp hx with rfl | hx
        · exact le_trans hmax.2 h1
        · exact h2 x hx hxw
      · rcases h3 with h3 | ⟨x, hx, hxw, h3⟩
        · by_cases hgt : a.SequenceNr > ln
          · right
            exact ⟨a, List.mem_cons_self _ _, h, by rw [h3, if_pos hgt]⟩
          · left
            rw [h3, if_neg hgt]
        · exact Or.inr ⟨x, List.mem_cons_of_mem _ hx, hxw, h3⟩
    · simp only [filterLoop, if_neg h]
      obtain ⟨h1, h2, h3⟩ := ih acc ln
      refine ⟨h1, ?_, ?_⟩
      · intro x hx hxw
        rcases List.mem_cons.mp hx with rfl | hx
        · exact absurd hxw h
        · exact h2 x hx hxw
      · rcases h3 with h3 | ⟨x, hx, hxw, h3⟩
        · exact Or.inl h3
        · exact Or.inr ⟨x, List.mem_cons_of_mem _ hx, hxw, h3⟩

theorem mem_keptEntries (m : Model) (w : Int) (x : Log) :
    x ∈ keptEntries m w ↔ x ∈ m.Logs.Entries ∧ x.SequenceNr ≥ w := by
  simp [keptEntries, List.mem_filter]

/-- A 64-bit subtraction is exact when the exact difference is a 64-bit value. -/
theorem subInt64_exact (a b : Int) (h : inInt64 (a - b)) : subInt64 a b = a - b := by
  unfold subInt64 wrapInt64
  unfold inInt64 minInt64 maxInt64 at h
  split <;> omega

/-- A 64-bit addition is exact when the exact sum is a 64-bit value. -/
theorem addInt64_exact (a b : Int) (h : inInt64 (a + b)) : addInt64 a b = a + b := by
  unfold addInt64 wrapInt64
  unfold inInt64 minInt64 maxInt64 at h
  split <;> omega

/-- Taking one off a 64-bit value and adding it back gives the value, also
across the wrap at `minInt64`. -/
theorem addInt64_subInt64_one (w : Int) (h : inInt64 w) : addInt64 (subInt64 w 1) 1 = w := by
  unfold addInt64 subInt64 wrapInt64 inInt64 minInt64 maxInt64
  unfold inInt64 minInt64 maxInt64 at h
  split <;> split <;> omega

/-- The entries `Model.filterLogsUpTo` returns: the kept ones, then the
synthesized one when the 64-bit difference between the last kept sequence number
and the low-water mark is positive. -/
theorem filterLogsUpTo_entries (m : Model) (w : Int) (now : String) :
    (m.filterLogsUpTo w now).Logs.Entries =
      keptEntries m w ++
        (match (keptEntries m w).getLast? with
         | some last =>
           if subInt64 last.SequenceNr w > 0 then
             [droppedEntry now (subInt64 last.SequenceNr w)]
           else []
         | none => []) := by
  simp only [Model.filterLogsUpTo, filterLoop_fst, List.nil_append, keptEntries, droppedEntry]
  cases (List.filter (fun l => decide (l.SequenceNr ≥ w)) m.Logs.Entries).getLast? with
  | none => simp
  | some last =>
    by_cases hd : subInt64 last.SequenceNr w > 0
    · simp only [if_pos hd]
    · simp only [if_neg hd, List.append_nil]

/-- C12 (evaluation of the code): in the state after three admitted Trace
entries (buffer 2, 1, 0) the low-water mark `minInt64` keeps all three entries,
yet the next watermark comes back as `minInt64` itself and not as 3, one more
than the largest kept sequence number: `CurrentLoad - 1` wraps to `maxInt64`, no
sequence number exceeds it, and `LoadNext + 1` wraps back. -/
theorem C12_watermark_wraps_at_minInt64 :
    ((runMsgs runInit
        [.logWrite (selfLog "12:00:00" severityTrace "a"),
         .logWrite (selfLog "12:00:01" severityTrace "b"),
         .logWrite (selfLog "12:00:02" severityTrace "c")]).filterLogsUpTo
          (-9223372036854775808) "12:00:09").Logs.Entries.map (fun l => l.SequenceNr)
        = [2, 1, 0]
      ∧ ((runMsgs runInit
        [.logWrite (selfLog "12:00:00" severityTrace "a"),
         .logWrite (selfLog "12:00:01" severityTrace "b"),
         .logWrite (selfLog "12:00:02" severityTrace "c")]).filterLogsUpTo
          (-9223372036854775808) "12:00:09").Logs.LoadNext = -9223372036854775808
      ∧ ((runMsgs runInit
        [.logWrite (selfLog "12:00:00" severityTrace "a"),
         .logWrite (selfLog "12:00:01" severityTrace "b"),
         .logWrite (selfLog "12:00:02" severityTrace "c")]).filterLogsUpTo
          (-9223372036854775808) "12:00:09").Logs.LoadNext ≠ 2 + 1 := by
  decide

/-- Away from the ends of the 64-bit range `filterLogsUpTo` computes the next
watermark exactly: for every log buffer and every 64-bit low-water mark `w` it
returns the buffered entries with `SequenceNr >= w`, in buffer order, followed
by nothing or by one synthesized entry; `LoadNext` is `w` when no entry was
kept; and when entries were kept, `w` is above `minInt64` and the kept sequence
numbers are below `maxInt64`, `LoadNext` is one more than the largest kept
sequence number. -/
theorem filterLogsUpTo_watermark_in_range (m : Model) (w : Int) (now : String)
    (hw : inInt64 w) :
    (∃ extra, (m.filterLogsUpTo w now).Logs.Entries
          = m.Logs.Entries.filter (fun l => decide (l.SequenceNr ≥ w)) ++ extra
        ∧ (extra = [] ∨ ∃ d, extra = [droppedEntry now d]))
      ∧ (m.Logs.Entries.filter (fun l => decide (l.SequenceNr ≥ w)) = [] →
          (m.filterLogsUpTo w now).Logs.LoadNext = w)
      ∧ (m.Logs.Entries.filter (fun l => decide (l.SequenceNr ≥ w)) ≠ [] →
          minInt64 < w →
          (∀ x ∈ m.Logs.Entries.filter (fun l => decide (l.SequenceNr ≥ w)),
            x.SequenceNr < maxInt64) →
          ∃ l ∈ m.Logs.Entries.filter (fun l => decide (l.SequenceNr ≥ w)),
            (m.filterLogsUpTo w now).Logs.LoadNext = l.SequenceNr + 1
            ∧ ∀ x ∈ m.Logs.Entries.filter (fun l => decide (l.SequenceNr ≥ w)),
                x.SequenceNr ≤ l.SequenceNr) := by
  have hload : (m.filterLogsUpTo w now).Logs.LoadNext
      = addInt64 (filterLoop w m.Logs.Entries [] (subInt64 w 1)).2 1 := rfl
  obtain ⟨_, h2, h3⟩ := filterLoop_snd w m.Logs.Entries [] (subInt64 w 1)
  refine ⟨?_, ?_, ?_⟩
  · refine ⟨_, filterLogsUpTo_entries m w now, ?_⟩
    cases (keptEntries m w).getLast? with
    | none => exact Or.inl rfl
    | some last =>
      by_cases hd : subInt64 last.SequenceNr w > 0
      · right; exact ⟨subInt64 last.SequenceNr w, by simp only [if_pos hd]⟩
      · left; simp only [if_neg hd]
  · intro hk
    change keptEntries m w = [] at hk
    rcases h3 with h3 | ⟨x, hx, hxw, _⟩
    · rw [hload, h3]
      exact addInt64_subInt64_one w hw
    · have : x ∈ keptEntries m w := (mem_keptEntries m w x).mpr ⟨hx, hxw⟩
      rw [hk] at this
      cases this
  · intro hk hmin hmax
    change keptEntries m w ≠ [] at hk
    change ∀ x ∈ keptEntries m w, x.SequenceNr < maxInt64 at hmax
    change ∃ l ∈ keptEntries m w, _ ∧ ∀ x ∈ keptEntries m w, _
    have hsub : subInt64 w 1 = w - 1 := by
      apply subInt64_exact
      unfold inInt64 minInt64 maxInt64 at hw ⊢
      unfold minInt64 at hmin
      omega
    rw [hsub] at h2 h3 hload
    obtain ⟨y, hy⟩ := List.exists_mem_of_ne_nil _ hk
    have hyk := (mem_keptEntries m w y).mp hy
    have hyr := h2 y hyk.1 hyk.2
    have hyw := hyk.2
    rcases h3 with h3 | ⟨x, hx, hxw, h3⟩
    · omega
    · have hxk : x ∈ keptEntries m w := (mem_keptEntries m w x).mpr ⟨hx, hxw⟩
      have hxmax := hmax x hxk
      refine ⟨x, hxk, ?_, ?_⟩
      · rw [hload, h3]
        unfold addInt64 wrapInt64 inInt64 minInt64 maxInt64
        unfold maxInt64 at hxmax
        split <;> omega
      · intro z hz
        have hzk := (mem_keptEntries m w z).mp hz
        rw [← h3]
        exact h2 z hzk.1 hzk.2

/-- In a buffer ordered newest-first the last entry carries the smallest
sequence number. -/
theorem getLast?_le_of_decreasing (l : List Log)
    (hs : l.Pairwise (fun a b => a.SequenceNr > b.SequenceNr)) (y : Log)
    (hy : l.getLast? = some y) : ∀ x ∈ l, y.SequenceNr ≤ x.SequenceNr := by
  obtain ⟨ys, rfl⟩ := List.getLast?_eq_some_iff.mp hy
  intro x hx
  rcases List.mem_append.mp hx with hx | hx
  · exact le_of_lt ((List.pairwise_append.mp hs).2.2 x hx y (List.mem_singleton_self y))
  · rw [List.mem_singleton.mp hx]

/-- C13 (evaluation of the code): in the state after six admitted Trace entries
(buffer 5, 4, 3, 2, strictly decreasing) the low-water mark
-9223372036854775806 lies below the oldest buffered sequence number 2, yet
`filterLogsUpTo` returns the four entries and no synthesized entry: the
difference 2^63 does not fit 64 bits and `dropped` wraps to a negative number. -/
theorem C13_dropped_wraps_far_below_oldest :
    (runMsgs runInit
        [.logWrite (selfLog "12:00:00" severityTrace "a"),
         .logWrite (selfLog "12:00:01" severityTrace "b"),
         .logWrite (selfLog "12:00:02" severityTrace "c"),
         .logWrite (selfLog "12:00:03" severityTrace "d"),
         .logWrite (selfLog "12:00:04" severityTrace "e"),
         .logWrite (selfLog "12:00:05" severityTrace "f")]).Logs.Entries.map
          (fun l => l.SequenceNr) = [5, 4, 3, 2]
      ∧ ((runMsgs runInit
        [.logWrite (selfLog "12:00:00" severityTrace "a"),
         .logWrite (selfLog "12:00:01" severityTrace "b"),
         .logWrite (selfLog "12:00:02" severityTrace "c"),
         .logWrite (selfLog "12:00:03" severityTrace "d"),
         .logWrite (selfLog "12:00:04" severityTrace "e"),
         .logWrite (selfLog "12:00:05" severityTrace "f")]).filterLogsUpTo
          (-9223372036854775806) "12:00:09").Logs.Entries
        = (runMsgs runInit
        [.logWrite (selfLog "12:00:00" severityTrace "a"),
         .logWrite (selfLog "12:00:01" severityTrace "b"),
         .logWrite (selfLog "12:00:02" severityTrace "c"),
         .logWrite (selfLog "12:00:03" severityTrace "d"),
         .logWrite (selfLog "12:00:04" severityTrace "e"),
         .logWrite (selfLog "12:00:05" severityTrace "f")]).Logs.Entries
      ∧ subInt64 2 (-9223372036854775806) = -9223372036854775808 := by
  decide

/-- While the difference fits 64 bits `filterLogsUpTo` reports it: for every
non-empty log buffer ordered newest-first (strictly decreasing sequence numbers)
and every low-water mark `w` smaller than the oldest buffered sequence number
by no more than `maxInt64`, it returns all buffered entries followed by exactly
one synthesized Warning entry, whose message is "Dropped d Log Messages" with
`d` the oldest buffered sequence number minus `w`. -/
theorem filterLogsUpTo_below_oldest_in_range (m : Model) (w : Int) (now : String)
    (hne : m.Logs.Entries ≠ [])
    (hs : m.Logs.Entries.Pairwise (fun a b => a.SequenceNr > b.SequenceNr))
    (hw : w < (m.Logs.Entries.getLast hne).SequenceNr)
    (hfit : (m.Logs.Entries.getLast hne).SequenceNr - w ≤ maxInt64) :
    (m.filterLogsUpTo w now).Logs.Entries =
      m.Logs.Entries ++
        [{ Time := now, Severity := "Warning"
           Message := "Dropped "
             ++ formatInt ((m.Logs.Entries.getLast hne).SequenceNr - w) ++ " Log Messages"
           SequenceNr := 0 }] := by
  have hlast : m.Logs.Entries.getLast? = some (m.Logs.Entries.getLast hne) :=
    List.getLast?_eq_getLast _ hne
  have hall := getLast?_le_of_decreasing _ hs _ hlast
  have hk : keptEntries m w = m.Logs.Entries := by
    unfold keptEntries
    rw [List.filter_eq_self]
    intro x hx
    have := hall x hx
    exact decide_eq_true (by omega)
  have hsub : subInt64 (m.Logs.Entries.getLast hne).SequenceNr w
      = (m.Logs.Entries.getLast hne).SequenceNr - w := by
    apply subInt64_exact
    unfold inInt64 minInt64
    unfold maxInt64 at hfit ⊢
    omega
  rw [filterLogsUpTo_entries, hk, hlast]
  simp only [hsub, if_pos (show (m.Logs.Entries.getLast hne).SequenceNr - w > 0 by omega)]
  rfl

/-! ## The shape of the log ring in reachable states -/

theorem runStep_configWrite_frame (m : Model) (v : Values) :
    (runStep m (.configWrite v)).state.Logs = m.Logs
      ∧ (runStep m (.configWrite v)).state.Status.LogCount = m.Status.LogCount := by
  rcases hU : m.Config.Update v with ⟨cfg, _ | e⟩
  · simp [runStep, hU]
  · simp [runStep, hU]

/-- Only an admitted log write changes the log counter or the buffer. -/
theorem runStep_frame_of_not_admitted (m : Model) (msg : Msg) (h : admitted m msg = none) :
    (runStep m msg).state.Logs = m.Logs
      ∧ (runStep m msg).state.Status.LogCount = m.Status.LogCount := by
  cases msg with
  | modelRead => exact ⟨rfl, rfl⟩
  | statusWrite sNew => exact ⟨rfl, rfl⟩
  | configReset => exact ⟨rfl, rfl⟩
  | configWrite v => exact runStep_configWrite_frame m v
  | logWrite l =>
    by_cases hc : SeverityLevel l.Severity ≥ SeverityLevel m.Config.LogSeverity
    · simp only [admitted, if_pos hc, runStep_logWrite_admitted m l hc, List.head?_cons] at h
      cases h
    · rw [runStep_logWrite_dropped m l hc]
      exact ⟨rfl, rfl⟩

/-- An admitted entry is a log write that passed the gate; it carries the log
counter of the state as its sequence number. -/
theorem admitted_some (m : Model) (msg : Msg) (x : Log) (h : admitted m msg = some x) :
    ∃ l, msg = .logWrite l ∧ SeverityLevel l.Severity ≥ SeverityLevel m.Config.LogSeverity
      ∧ x = { l with SequenceNr := m.Status.LogCount } := by
  cases msg with
  | modelRead => cases h
  | statusWrite sNew => cases h
  | configReset => cases h
  | configWrite v => cases h
  | logWrite l =>
    by_cases hc : SeverityLevel l.Severity ≥ SeverityLevel m.Config.LogSeverity
    · simp only [admitted, if_pos hc, runStep_logWrite_admitted m l hc, List.head?_cons,
        Option.some.injEq] at h
      exact ⟨l, rfl, hc, h.symm⟩
    · simp only [admitted, if_neg hc] at h
      cases h

theorem ringShape_runInit : ringShape runInit :=
  ⟨0, rfl, rfl⟩

theorem ringShape_runStep (m : Model) (msg : Msg) (h : ringShape m) :
    ringShape (runStep m msg).state := by
  cases ha : admitted m msg with
  | none =>
    obtain ⟨hl, hc⟩ := runStep_frame_of_not_admitted m msg ha
    obtain ⟨n, hn, hseq⟩ := h
    exact ⟨n, by rw [hc, hn], by rw [hl, hseq]⟩
  | some x =>
    obtain ⟨l, rfl, hc, -⟩ := admitted_some m msg x ha
    obtain ⟨n, hn, hseq⟩ := h
    refine ⟨n + 1, ?_, ?_⟩
    · rw [runStep_logWrite_admitted m l hc]
      simp only [hn]
      push_cast
      rfl
    · rw [runStep_logWrite_admitted m l hc]
      have hk : min (n + 1) (logCashSize + 1) = min logCashSize (min n (logCashSize + 1)) + 1 := by
        simp only [logCashSize]; omega
      rw [List.map_cons, List.map_take, hseq, hk, List.range_succ_eq_map, List.map_cons,
        List.map_map, ← List.map_take, List.take_range]
      refine congrArg₂ List.cons (by simp only [hn]; push_cast; omega) ?_
      apply List.map_congr_left
      intro i _
      simp only [Function.comp, Nat.succ_eq_add_one]
      push_cast
      omega

theorem ringShape_runMsgs (ms : List Msg) (m : Model) (h : ringShape m) :
    ringShape (runMsgs m ms) := by
  induction ms generalizing m with
  | nil => exact h
  | cons msg ms ih => exact ih _ (ringShape_runStep m msg h)

/-- Which sequence numbers a ring of the right shape carries. -/
theorem ringShape_mem (m : Model) (n : Nat)
    (hseq : m.Logs.Entries.map (fun l => l.SequenceNr)
      = (List.range (min n (logCashSize + 1))).map (fun i : Nat => (n : Int) - 1 - (i : Int)))
    (s : Int) :
    (∃ l ∈ m.Logs.Entries, l.SequenceNr = s)
      ↔ (n : Int) - (min n (logCashSize + 1) : Nat) ≤ s ∧ s < n := by
  have : (∃ l ∈ m.Logs.Entries, l.SequenceNr = s)
      ↔ s ∈ m.Logs.Entries.map (fun l => l.SequenceNr) := by
    simp [List.mem_map]
  rw [this, hseq]
  simp only [List.mem_map, List.mem_range, logCashSize]
  constructor
  · rintro ⟨i, hi, rfl⟩
    omega
  · rintro ⟨h1, h2⟩
    refine ⟨((n : Int) - 1 - s).toNat, ?_, ?_⟩ <;> omega

theorem ringShape_decreasing (m : Model) (h : ringShape m) :
    m.Logs.Entries.Pairwise (fun a b => a.SequenceNr > b.SequenceNr)
      ∧ ∀ l ∈ m.Logs.Entries, l.SequenceNr < m.Status.LogCount := by
  obtain ⟨n, hn, hseq⟩ := h
  constructor
  · have h1 : (m.Logs.Entries.map (fun l => l.SequenceNr)).Pairwise (fun a b => a > b) := by
      rw [hseq, List.pairwise_map]
      refine (List.pairwise_lt_range _).imp ?_
      intro a b hab
      omega
    exact List.pairwise_map.mp h1
  · intro l hl
    have := (ringShape_mem m n hseq l.SequenceNr).mp ⟨l, hl, rfl⟩
    omega

/-- Along a run the admitted entries get increasing sequence numbers, none below
the log counter the run starts with. -/
theorem admittedAlong_increasing (ms : List Msg) (m : Model) :
    (admittedAlong m ms).Pairwise (fun a b => a.SequenceNr < b.SequenceNr)
      ∧ ∀ x ∈ admittedAlong m ms, m.Status.LogCount ≤ x.SequenceNr := by
  induction ms generalizing m with
  | nil => exact ⟨List.Pairwise.nil, fun x hx => by cases hx⟩
  | cons msg ms ih =>
    obtain ⟨ih1, ih2⟩ := ih (runStep m msg).state
    cases ha : admitted m msg with
    | none =>
      have hc := (runStep_frame_of_not_admitted m msg ha).2
      simp only [admittedAlong, ha, Option.toList, List.nil_append]
      exact ⟨ih1, fun x hx => by have := ih2 x hx; omega⟩
    | some x =>
      obtain ⟨l, rfl, hc, rfl⟩ := admitted_some m msg x ha
      have hcount : (runStep m (.logWrite l)).state.Status.LogCount = m.Status.LogCount + 1 := by
        rw [runStep_logWrite_admitted m l hc]
      simp only [admittedAlong, ha, Option.toList, List.singleton_append, List.pairwise_cons,
        List.mem_cons]
      refine ⟨⟨fun y hy => ?_, ih1⟩, ?_⟩
      · have := ih2 y hy
        omega
      · rintro y (rfl | hy)
        · exact le_refl _
        · have := ih2 y hy
          omega

/-- The run of six log writes of which the fourth is dropped (Info under the
minimum severity Warning set by the config write before it): the admitted
entries are numbered 0 to 4 with no gap. -/
theorem admittedAlong_sample :
    (admittedAlong runInit
        [.logWrite (selfLog "12:00:00" severityTrace "a"),
         .logWrite (selfLog "12:00:01" severityInfo "b"),
         .logWrite (selfLog "12:00:02" severityError "c"),
         .configWrite [("LogSeverity", ["Warning"]), ("StatusUpdatePeriod", ["10"])],
         .logWrite (selfLog "12:00:03" severityInfo "d"),
         .logWrite (selfLog "12:00:04" severityWarning "e"),
         .logWrite (selfLog "12:00:05" severityError "f")]).map
        (fun l => (l.SequenceNr, l.Message))
      = [(0, "a"), (1, "b"), (2, "c"), (3, "e"), (4, "f")] := by
  decide

/-- C14: along every run of the controller from its initial state the admitted
entries get strictly increasing sequence numbers, and in the state the run
reaches the buffered entries are strictly decreasing in sequence number from
front to back, all below the log counter. -/
theorem C14_sequence_numbers_increase (ms : List Msg) :
    (admittedAlong runInit ms).Pairwise (fun a b => a.SequenceNr < b.SequenceNr)
      ∧ (runMsgs runInit ms).Logs.Entries.Pairwise (fun a b => a.SequenceNr > b.SequenceNr)
      ∧ ∀ l ∈ (runMsgs runInit ms).Logs.Entries,
          l.SequenceNr < (runMsgs runInit ms).Status.LogCount :=
  ⟨(admittedAlong_increasing ms runInit).1,
    ringShape_decreasing _ (ringShape_runMsgs ms runInit ringShape_runInit)⟩

/-! ## Dropped-message warnings in reachable states -/

/-- How many numbers below `n` lie in the interval from `a` up to `c`. -/
theorem length_filter_range (n a c : Nat) :
    ((List.range n).filter (fun s => decide (a ≤ s) && decide (s < c))).length
      = min n c - a := by
  induction n with
  | zero => simp
  | succ n ih =>
    rw [List.range_succ, List.filter_append, List.length_append, ih]
    by_cases h : a ≤ n ∧ n < c
    · have ht : (decide (a ≤ n) && decide (n < c)) = true := by
        simp only [Bool.and_eq_true, decide_eq_true_eq]
        exact h
      simp only [List.filter_cons, ht, if_true, List.filter_nil, List.length_singleton]
      omega
    · have hf : (decide (a ≤ n) && decide (n < c)) = false := by
        simp only [Bool.and_eq_false_iff, decide_eq_false_iff_not]
        by_cases h1 : a ≤ n
        · exact Or.inr (fun h2 => h ⟨h1, h2⟩)
        · exact Or.inl h1
      simp only [List.filter_cons, hf, List.filter_nil, List.length_nil, Bool.false_eq_true,
        if_false]
      omega

/-- In a ring of the right shape the count of evicted entries at or above the
low-water mark is the distance from the mark up to the oldest buffered entry. -/
theorem droppedCount_ringShape (m : Model) (n : Nat) (hn : m.Status.LogCount = (n : Int))
    (hseq : m.Logs.Entries.map (fun l => l.SequenceNr)
      = (List.range (min n (logCashSize + 1))).map (fun i : Nat => (n : Int) - 1 - (i : Int)))
    (w : Int) (hw : 0 ≤ w) :
    droppedCount m w = (n - min n (logCashSize + 1)) - w.toNat := by
  have hcongr : (List.range n).filter
        (fun s : Nat => decide (w ≤ (s : Int))
          && decide (∀ l ∈ m.Logs.Entries, l.SequenceNr ≠ (s : Int)))
      = (List.range n).filter
        (fun s => decide (w.toNat ≤ s) && decide (s < n - min n (logCashSize + 1))) := by
    apply List.filter_congr
    intro s hs
    have hsn : s < n := List.mem_range.mp hs
    have hmem := ringShape_mem m n hseq (s : Int)
    have h1 : decide (w ≤ (s : Int)) = decide (w.toNat ≤ s) := by
      apply decide_eq_decide.mpr
      omega
    have h2 : decide (∀ l ∈ m.Logs.Entries, l.SequenceNr ≠ (s : Int))
        = decide (s < n - min n (logCashSize + 1)) := by
      apply decide_eq_decide.mpr
      constructor
      · intro hall
        have hnot : ¬ ∃ l ∈ m.Logs.Entries, l.SequenceNr = (s : Int) :=
          fun ⟨l, hl, he⟩ => hall l hl he
        rw [hmem] at hnot
        omega
      · intro hlt l hl he
        have := hmem.mp ⟨l, hl, he⟩
        omega
    rw [h1, h2]
  unfold droppedCount
  rw [hn, Int.toNat_ofNat, hcongr, length_filter_range]
  omega

/-- C20: for every reachable controller state and every low-water mark
`w >= 0`, `filterLogsUpTo` returns the buffered entries with `SequenceNr >= w`
followed by the synthesized entry "Dropped d Log Messages" exactly when
`d > 0`, where `d` counts the sequence numbers `s` with `w <= s < LogCount` that
are no longer in the buffer; and when `w` is at or above the oldest buffered
sequence number it returns the kept entries and no synthesized entry. -/
theorem C20_dropped_warning_iff_evicted (m : Model) (w : Int) (now : String)
    (hm : Reachable m) (hw : 0 ≤ w) :
    (m.filterLogsUpTo w now).Logs.Entries
        = m.Logs.Entries.filter (fun l => decide (l.SequenceNr ≥ w))
          ++ (if droppedCount m w > 0 then [droppedEntry now (droppedCount m w)] else [])
      ∧ ∀ oldest, m.Logs.Entries.getLast? = some oldest → oldest.SequenceNr ≤ w →
          (m.filterLogsUpTo w now).Logs.Entries
            = m.Logs.Entries.filter (fun l => decide (l.SequenceNr ≥ w)) := by
  obtain ⟨ms, rfl⟩ := hm
  have hshape := ringShape_runMsgs ms runInit ringShape_runInit
  generalize runMsgs runInit ms = m at hshape ⊢
  have hdec := (ringShape_decreasing m hshape).1
  obtain ⟨n, hn, hseq⟩ := hshape
  have hcount := droppedCount_ringShape m n hn hseq w hw
  have hmem := ringShape_mem m n hseq
  have hfirst : (m.filterLogsUpTo w now).Logs.Entries
      = keptEntries m w
        ++ (if droppedCount m w > 0 then [droppedEntry now (droppedCount m w)] else []) := by
    rw [filterLogsUpTo_entries]
    congr 1
    cases hlast : (keptEntries m w).getLast? with
    | none =>
      have hk : keptEntries m w = [] := List.getLast?_eq_none_iff.mp hlast
      have hzero : droppedCount m w = 0 := by
        rw [hcount]
        by_cases hn0 : n = 0
        · omega
        · have hnewest := (hmem ((n : Int) - 1)).mpr (by simp only [logCashSize]; omega)
          obtain ⟨l, hl, hls⟩ := hnewest
          have hnot : ¬ l.SequenceNr ≥ w := by
            intro hge
            have : l ∈ keptEntries m w := (mem_keptEntries m w l).mpr ⟨hl, hge⟩
            rw [hk] at this
            cases this
          omega
      simp only [hzero, gt_iff_lt, lt_self_iff_false, if_false]
    | some last =>
      have hlk : last ∈ keptEntries m w := List.mem_of_getLast?_eq_some hlast
      obtain ⟨hlE, hlw⟩ := (mem_keptEntries m w last).mp hlk
      have hlr := (hmem last.SequenceNr).mp ⟨last, hlE, rfl⟩
      have hkdec : (keptEntries m w).Pairwise (fun a b => a.SequenceNr > b.SequenceNr) :=
        hdec.filter _
      have hmin := getLast?_le_of_decreasing _ hkdec last hlast
      have hex := (hmem (max w ((n : Int) - (min n (logCashSize + 1) : Nat)))).mpr
        (by simp only [logCashSize] at hlr ⊢; omega)
      obtain ⟨l0, hl0, hl0s⟩ := hex
      have hl0k : l0 ∈ keptEntries m w := (mem_keptEntries m w l0).mpr ⟨hl0, by omega⟩
      have hle := hmin l0 hl0k
      have hsub : subInt64 last.SequenceNr w = last.SequenceNr - w := by
        unfold subInt64 wrapInt64 inInt64 minInt64 maxInt64
        split <;> omega
      have hval : subInt64 last.SequenceNr w = ((droppedCount m w : Nat) : Int) := by
        rw [hsub, hcount]
        simp only [logCashSize] at hlr hl0s ⊢
        omega
      simp only [hval, gt_iff_lt, Nat.cast_pos]
  refine ⟨hfirst, ?_⟩
  intro oldest hold hle
  rw [hfirst]
  have hzero : droppedCount m w = 0 := by
    have hoE : oldest ∈ m.Logs.Entries := List.mem_of_getLast?_eq_some hold
    have hor := (hmem oldest.SequenceNr).mp ⟨oldest, hoE, rfl⟩
    have hmin := getLast?_le_of_decreasing _ hdec oldest hold
    have hk0 : 0 < min n (logCashSize + 1) := by simp only [logCashSize] at hor ⊢; omega
    have hex := (hmem ((n : Int) - (min n (logCashSize + 1) : Nat))).mpr (by omega)
    obtain ⟨l0, hl0, hl0s⟩ := hex
    have := hmin l0 hl0
    rw [hcount]
    omega
  simp only [hzero, gt_iff_lt, lt_self_iff_false, if_false, List.append_nil, keptEntries]

/-- C20 in the state after six admitted Trace entries (the buffer carries 5, 4,
3, 2 and the entries 0 and 1 are gone): from the low-water mark 1 one entry is
missing and the warning says so; from the low-water mark 2 there is no warning. -/
theorem C20_dropped_warning_iff_evicted_witness :
    ((runMsgs runInit
        [.logWrite (selfLog "12:00:00" severityTrace "a"),
         .logWrite (selfLog "12:00:01" severityTrace "b"),
         .logWrite (selfLog "12:00:02" severityTrace "c"),
         .logWrite (selfLog "12:00:03" severityTrace "d"),
         .logWrite (selfLog "12:00:04" severityTrace "e"),
         .logWrite (selfLog "12:00:05" severityTrace "f")]).filterLogsUpTo 1
          "12:00:09").Logs.Entries.map (fun l => (l.SequenceNr, l.Message))
      = [(5, "f"), (4, "e"), (3, "d"), (2, "c"), (0, "Dropped 1 Log Messages")] := by
  have h := (C20_dropped_warning_iff_evicted
    (runMsgs runInit
        [.logWrite (selfLog "12:00:00" severityTrace "a"),
         .logWrite (selfLog "12:00:01" severityTrace "b"),
         .logWrite (selfLog "12:00:02" severityTrace "c"),
         .logWrite (selfLog "12:00:03" severityTrace "d"),
         .logWrite (selfLog "12:00:04" severityTrace "e"),
         .logWrite (selfLog "12:00:05" severityTrace "f")])
    1 "12:00:09" ⟨_, rfl⟩ (by decide)).1
  rw [h]
  decide

/-! ## The controller and the ticker on the period channel -/

/-- C18 (evaluation of the code): from the start, when the timer fires (the
ticker goes to its send on `statusWrite`) and the controller then receives a
config update (and goes to its send on `statusPeriod`), the controller stands at
the send on the period channel while the ticker stands at the send on the status
channel; the same state is reached when the config update arrives first; and
from that state no move is possible. -/
theorem C18_config_update_during_tick_blocks_both :
    goroutinesInit.moves [.timerFires, .configArrives]
        = some { run := .sendStatusPeriod, ticker := .sendStatusWrite }
      ∧ goroutinesInit.moves [.configArrives, .timerFires]
        = some { run := .sendStatusPeriod, ticker := .sendStatusWrite }
      ∧ ∀ mv : Move,
          Goroutines.move { run := .sendStatusPeriod, ticker := .sendStatusWrite } mv = none :=
  ⟨by decide, by decide, fun mv => by cases mv <;> rfl⟩

end HtmxDash
